import Mathlib

/-!
# AFSK modulator of pecan-lpc82x (`src/modem.c`)

A shallow embedding of the sample interrupt `SCT_IRQHandler`, of the playback
routine `modem_flush_frame` and of the constants they use, followed by the
properties of the modulator proved on that embedding.

Conventions of the embedding:

* the module globals of `modem.c` are the fields of `State`; unsigned machine
  integers are natural numbers, and every store that can overflow its C type
  (`phase += ...`, `++current_sample_in_baud`, `packet_pos++`) is reduced
  modulo `2^32` or `2^16` as the C type prescribes;
* the exported globals `modem_packet` and `modem_packet_size`, which the
  modulator only reads, form a `Packet`; `modem_packet` is the map from an
  index to the byte found there, and every read of it is recorded in the
  trace (`Call.readPacket`), so that the indices read can be examined;
* calls into the hardware and into the other modules are not interpreted:
  each function returns, next to the new state, the list of the calls it
  made, in program order.
-/

namespace Modem

/-! ## Constants (`modem.c`, lines 20-26) -/

def TX_CPU_CLOCK : Nat := 12000000
def TABLE_SIZE : Nat := 2
def PLAYBACK_RATE : Nat := TX_CPU_CLOCK / 256
def BAUD_RATE : Nat := 1200
def SAMPLES_PER_BAUD : Nat := PLAYBACK_RATE / BAUD_RATE
def PHASE_DELTA_1200 : Nat := ((TABLE_SIZE * 1200) <<< 7) / PLAYBACK_RATE
def PHASE_DELTA_2200 : Nat := ((TABLE_SIZE * 2200) <<< 7) / PLAYBACK_RATE

/-- The period of the phase accumulator named by the specification:
`table_size × 2^7`. The source has no such constant; it is only used to state
properties. -/
def PERIOD : Nat := TABLE_SIZE * 2 ^ 7

/-! ## Data model -/

/-- The module globals of `modem.c` (lines 30-35). -/
structure State where
  /-- The `uint16_t` working register of the byte in flight. -/
  current_byte : Nat
  /-- The `uint16_t` sample counter inside the baud interval. -/
  current_sample_in_baud : Nat
  /-- The `uint32_t` stride of the phase. -/
  phase_delta : Nat
  /-- The `uint32_t` phase accumulator. -/
  phase : Nat
  /-- The `uint32_t` position of the next bit to be sent out. -/
  packet_pos : Nat
  /-- Is the timer running. -/
  modem_busy : Bool
deriving DecidableEq

/-- The exported globals of `modem.c` (lines 38-39). -/
structure Packet where
  /-- The byte held at each index of `uint8_t modem_packet[]`. -/
  modem_packet : Nat → Nat
  /-- The `uint16_t modem_packet_size`. -/
  modem_packet_size : Nat

/-- The calls a function makes into the hardware or into another module, and
the reads of the packet buffer. -/
inductive Call where
  | gpsIsOn (result : Bool)
  | GPS_hibernate_uart
  | Si446x_Init
  | gps_get_region_frequency
  | radioTune
  | SCT_setup
  | NVIC_EnableIRQ
  | Chip_SCT_ClearControl_HALT_L
  | WFI
  | Chip_SCT_SetControl_HALT_L
  | Chip_SCT_ClearEventFlag
  | setGPIO_pin (level : Nat)
  | readPacket (index : Nat)
  | radioShutdown
  | GPS_wake_uart
deriving DecidableEq

/-! ## The interrupt routine (`modem.c`, lines 91-124) -/

/-- Lines 102-106: the byte register at the start of a baud interval, and the
read of the buffer when a fresh byte is loaded. -/
def nextByte (pkt : Packet) (s : State) : Nat × List Call :=
  if s.packet_pos &&& 7 = 0 then
    (pkt.modem_packet (s.packet_pos >>> 3) % 2 ^ 8, [Call.readPacket (s.packet_pos >>> 3)])
  else
    (s.current_byte / 2, [])

/-- Lines 101-112: at the first sample of a baud interval load the next bit
and toggle the tone when that bit is 0. -/
def loadBit (pkt : Packet) (s : State) : State × List Call :=
  if s.current_sample_in_baud = 0 then
    let cb := nextByte pkt s
    let s1 := { s with current_byte := cb.1 }
    if s1.current_byte &&& 1 = 0 then
      ({ s1 with phase_delta := s1.phase_delta ^^^ (PHASE_DELTA_1200 ^^^ PHASE_DELTA_2200) }, cb.2)
    else
      (s1, cb.2)
  else
    (s, [])

/-- Lines 118-121: count the sample, and move to the next bit after
`SAMPLES_PER_BAUD` samples. -/
def countSample (s : State) : State :=
  if (s.current_sample_in_baud + 1) % 2 ^ 16 = SAMPLES_PER_BAUD then
    { s with current_sample_in_baud := 0, packet_pos := (s.packet_pos + 1) % 2 ^ 32 }
  else
    { s with current_sample_in_baud := (s.current_sample_in_baud + 1) % 2 ^ 16 }

/-- One invocation of the interrupt routine. -/
def SCT_IRQHandler (pkt : Packet) (s : State) : State × List Call :=
  if s.packet_pos = pkt.modem_packet_size then
    ({ s with modem_busy := false },
      [Call.Chip_SCT_SetControl_HALT_L, Call.Chip_SCT_ClearEventFlag])
  else
    let b := loadBit pkt s
    let s2 := { b.1 with phase := (b.1.phase + b.1.phase_delta) % 2 ^ 32 }
    (countSample s2,
      b.2 ++ [Call.setGPIO_pin ((s2.phase >>> 7) &&& 1), Call.Chip_SCT_ClearEventFlag])

/-! ## The playback routine (`modem.c`, lines 46-85) -/

/-- Lines 70-73 of `modem_flush_frame`: the reset of the modulation state. -/
def resetModulation (s : State) : State :=
  { s with phase_delta := PHASE_DELTA_1200, phase := 0, packet_pos := 0,
           current_sample_in_baud := 0 }

/-- `Modem_Init` (lines 46-67): radio first, then the sample timer; the busy
flag is set just before the interrupt is enabled and the counter started. -/
def Modem_Init (s : State) : State × List Call :=
  ({ s with modem_busy := true },
    [Call.Si446x_Init, Call.gps_get_region_frequency, Call.radioTune, Call.SCT_setup,
     Call.NVIC_EnableIRQ, Call.Chip_SCT_ClearControl_HALT_L])

/-- Lines 79-80: `while(modem_busy) __WFI();`. Each wait is ended by one
invocation of the interrupt routine; `fuel` bounds the number of waits, and
the loop yields nothing when the flag is still set after `fuel` of them. -/
def waitNotBusy (pkt : Packet) : Nat → State → Option (State × List Call)
  | 0, s => if s.modem_busy then none else some (s, [])
  | fuel + 1, s =>
    if s.modem_busy then
      (waitNotBusy pkt fuel (SCT_IRQHandler pkt s).1).map
        (fun r => (r.1, Call.WFI :: (SCT_IRQHandler pkt s).2 ++ r.2))
    else
      some (s, [])

/-- The routine `modem_flush_frame` (lines 69-85). `gps1` and `gps2` are the
answers of the two `gpsIsOn()` queries. -/
def modem_flush_frame (pkt : Packet) (gps1 gps2 : Bool) (fuel : Nat) (s : State) :
    Option (State × List Call) :=
  let s1 := resetModulation s
  let t1 := Call.gpsIsOn gps1 :: (if gps1 then [Call.GPS_hibernate_uart] else [])
  let m := Modem_Init s1
  (waitNotBusy pkt fuel m.1).map
    (fun r => (r.1, t1 ++ m.2 ++ r.2 ++ [Call.radioShutdown] ++
      (Call.gpsIsOn gps2 :: (if gps2 then [Call.GPS_wake_uart] else []))))

/-! ## Runs of the interrupt routine -/

/-- The state with which the transmission of `modem_flush_frame` starts: the
reset of lines 70-73 followed by `Modem_Init`. -/
def txStart (s : State) : State := (Modem_Init (resetModulation s)).1

/-- The state after `n` invocations of the interrupt routine. -/
def ticks (pkt : Packet) : Nat → State → State
  | 0, s => s
  | n + 1, s => ticks pkt n (SCT_IRQHandler pkt s).1

/-- The calls made by invocation number `k` (counted from 0) of the interrupt
routine. -/
def tickCalls (pkt : Packet) (s : State) (k : Nat) : List Call :=
  (SCT_IRQHandler pkt (ticks pkt k s)).2

/-- The levels driven on the output pin by a list of calls. -/
def samples : List Call → List Nat
  | [] => []
  | Call.setGPIO_pin l :: t => l :: samples t
  | _ :: t => samples t

/-- The indices of the packet buffer read by a list of calls. -/
def reads : List Call → List Nat
  | [] => []
  | Call.readPacket i :: t => i :: reads t
  | _ :: t => reads t

/-- The calls made by the first `n` invocations of the interrupt routine. -/
def ticksTrace (pkt : Packet) : Nat → State → List Call
  | 0, _ => []
  | n + 1, s => (SCT_IRQHandler pkt s).2 ++ ticksTrace pkt n (SCT_IRQHandler pkt s).1

/-- The tone (phase stride) with which invocation number `k` advances the
phase: the decision of lines 101-112 precedes the addition of line 114, and
nothing after line 114 writes `phase_delta`, so it is the stride stored when
the invocation returns. -/
def toneUsed (pkt : Packet) (s : State) (k : Nat) : Nat :=
  (ticks pkt (k + 1) s).phase_delta

/-! ## Vocabulary of the specification -/

/-- Bit `i mod 8`, counted from the least-significant bit, of byte `i div 8`
of the packet. -/
def packetBit (pkt : Packet) (i : Nat) : Nat :=
  (pkt.modem_packet (i / 8) % 2 ^ 8) / 2 ^ (i % 8) % 2

/-- The number of 0 bits among the first `n` bits of the packet. -/
def zeroBits (pkt : Packet) : Nat → Nat
  | 0 => 0
  | n + 1 => zeroBits pkt n + (if packetBit pkt n = 0 then 1 else 0)

/-- The tone of baud interval `i - 1`, read at its sample `j`; the tone before
baud interval 0 is the mark tone. -/
def tonePrev (pkt : Packet) (s : State) (i j : Nat) : Nat :=
  if i = 0 then PHASE_DELTA_1200 else toneUsed pkt s (SAMPLES_PER_BAUD * (i - 1) + j)

/-- The module globals as C initialises them: zero, and `modem_busy = false`. -/
def powerOn : State := ⟨0, 0, 0, 0, 0, false⟩

/-- A buffer holding the byte `b` at every index, of which `bits` bits are to
be sent. -/
def fill (b bits : Nat) : Packet := ⟨fun _ => b, bits⟩

/-- The calls made while `modem_flush_frame` waits through `n` invocations of
the interrupt routine: each `__WFI()` followed by the calls of the invocation
that ends it. -/
def waitTrace (pkt : Packet) : Nat → State → List Call
  | 0, _ => []
  | n + 1, s =>
    Call.WFI :: (SCT_IRQHandler pkt s).2 ++ waitTrace pkt n (SCT_IRQHandler pkt s).1

/-- The tone generator as the specification words it:
`advance(phase, delta) = (phase + delta) mod PERIOD`. -/
def specAdvance (phase delta : Nat) : Nat := (phase + delta) % PERIOD

/-- The output level as the specification words it: the most-significant
phase bit beyond the seven fractional bits, bit 7 of a phase below `PERIOD`. -/
def specLevel (phase : Nat) : Nat := phase / 2 ^ 7 % 2

/-- The interrupt routine with the tone generator of the specification in the
place of lines 114-116: the accumulator is reduced modulo `PERIOD` on every
invocation, and the pin is driven with `specLevel` of it. Everything else is
as in `SCT_IRQHandler`. -/
def specHandler (pkt : Packet) (s : State) : State × List Call :=
  if s.packet_pos = pkt.modem_packet_size then
    ({ s with modem_busy := false },
      [Call.Chip_SCT_SetControl_HALT_L, Call.Chip_SCT_ClearEventFlag])
  else
    let b := loadBit pkt s
    let s2 := { b.1 with phase := specAdvance b.1.phase b.1.phase_delta }
    (countSample s2,
      b.2 ++ [Call.setGPIO_pin (specLevel s2.phase), Call.Chip_SCT_ClearEventFlag])

/-- The state after `n` invocations of `specHandler`. -/
def specTicks (pkt : Packet) : Nat → State → State
  | 0, s => s
  | n + 1, s => specTicks pkt n (specHandler pkt s).1

/-- The calls made by invocation number `k` of `specHandler`. -/
def specTickCalls (pkt : Packet) (s : State) (k : Nat) : List Call :=
  (specHandler pkt (specTicks pkt k s)).2

/-- Is the call one that the interrupt routine makes (lines 94, 95, 103, 116
and 123). -/
def Call.fromIrq : Call → Bool
  | Call.Chip_SCT_SetControl_HALT_L => true
  | Call.Chip_SCT_ClearEventFlag => true
  | Call.setGPIO_pin _ => true
  | Call.readPacket _ => true
  | _ => false

/-- The byte register while bit `i` is being sent: byte `i div 8` of the
packet shifted right by `i mod 8`. -/
def byteAt (pkt : Packet) (i : Nat) : Nat :=
  (pkt.modem_packet (i / 8) % 2 ^ 8) / 2 ^ (i % 8)

/-- The tone after the NRZI rule has been applied to the first `n` bits of the
packet, starting from the mark tone. -/
def toneAfter (pkt : Packet) : Nat → Nat
  | 0 => PHASE_DELTA_1200
  | n + 1 =>
    if packetBit pkt n = 0 then toneAfter pkt n ^^^ (PHASE_DELTA_1200 ^^^ PHASE_DELTA_2200)
    else toneAfter pkt n

/-- What holds of the state `s` reached by `k` invocations of the interrupt
routine after the start of a transmission, as long as the packet is not
finished: `k div 39` whole baud intervals are done and `k mod 39` samples of
the current one. -/
structure RunInv (pkt : Packet) (k : Nat) (s : State) : Prop where
  pos : s.packet_pos = k / 39
  cnt : s.current_sample_in_baud = k % 39
  busy : s.modem_busy = true
  mid : k % 39 ≠ 0 →
    s.phase_delta = toneAfter pkt (k / 39 + 1) ∧ s.current_byte = byteAt pkt (k / 39)
  edge : k % 39 = 0 →
    s.phase_delta = toneAfter pkt (k / 39) ∧
      (k / 39 ≠ 0 → s.current_byte = byteAt pkt (k / 39 - 1))

end Modem

/-! # Voltage telemetry (`src/adc.c`) -/

namespace Adc

/-- The macros of the vendor's chip library that `getADC` uses; the library
is not part of the repository, so they are parameters. -/
structure Chip where
  /-- The overrun flag of a data register. -/
  ADC_DR_OVERRUN : Nat
  /-- The data-valid flag of a data register. -/
  ADC_SEQ_GDAT_DATAVALID : Nat
  /-- The conversion result held in a data register. -/
  ADC_DR_RESULT : Nat → Nat

/-- The calls that `getADC` makes. -/
inductive Call where
  | Chip_ADC_SetupSequencer (ad : Nat)
  | Chip_ADC_EnableSequencer
  | Chip_ADC_GetDataReg (ad : Nat)
  | delay (units : Nat)
deriving DecidableEq

/-- The loop of lines 67-75, entered with the counter `i` and the last value
`gdat`. `dataReg n` is the value that read number `n` (counted from 0) of the
data register returns; `i` counts the reads made so far. `fuel` bounds the
number of iterations. -/
def getADC_loop (chip : Chip) (ad : Nat) (dataReg : Nat → Nat) :
    Nat → Nat → Nat → Option (Nat × List Call)
  | 0, _, gdat =>
    if gdat &&& (chip.ADC_DR_OVERRUN ||| chip.ADC_SEQ_GDAT_DATAVALID) = 0 then none
    else some (chip.ADC_DR_RESULT gdat, [])
  | fuel + 1, i, gdat =>
    if gdat &&& (chip.ADC_DR_OVERRUN ||| chip.ADC_SEQ_GDAT_DATAVALID) = 0 then
      if i > 100 then
        some (0, [Call.Chip_ADC_GetDataReg ad])
      else
        (getADC_loop chip ad dataReg fuel ((i + 1) % 2 ^ 32) (dataReg i % 2 ^ 32)).map
          (fun r => (r.1, Call.Chip_ADC_GetDataReg ad :: Call.delay 1 :: r.2))
    else
      some (chip.ADC_DR_RESULT gdat, [])

/-- The function `getADC` (lines 59-78): the value returned and the calls
made. -/
def getADC (chip : Chip) (ad : Nat) (dataReg : Nat → Nat) (fuel : Nat) :
    Option (Nat × List Call) :=
  (getADC_loop chip ad dataReg fuel 0 0).map
    (fun r => (r.1, Call.Chip_ADC_SetupSequencer ad :: Call.Chip_ADC_EnableSequencer :: r.2))

/-- The macro `ADC_CORRECTION_10k` (line 10) on a `uint32_t` argument. -/
def ADC_CORRECTION_10k (x : Nat) : Nat :=
  ((((x * 1129) % 2 ^ 32) >>> 10) + 2 ^ 32 - 562) % 2 ^ 32

/-- Line 43 of `getBatteryMV`, on the value `adc` that `getADC` returned;
`REF_MV` is a macro of the absent `config.h`. -/
def batteryMV (REF_MV adc : Nat) : Nat :=
  if adc = 0 then 0 else ADC_CORRECTION_10k (((adc * REF_MV) % 2 ^ 32) >>> 11)

/-- The function `getBatteryMV` (lines 40-44). -/
def getBatteryMV (chip : Chip) (ADC_BATT_CH REF_MV : Nat) (dataReg : Nat → Nat)
    (fuel : Nat) : Option (Nat × List Call) :=
  (getADC chip ADC_BATT_CH dataReg fuel).map (fun r => (batteryMV REF_MV r.1, r.2))

/-- The number of reads of the data register in a list of calls. -/
def readCount : List Call → Nat
  | [] => 0
  | Call.Chip_ADC_GetDataReg _ :: t => readCount t + 1
  | _ :: t => readCount t

/-- The delay units spent in a list of calls. -/
def delayCount : List Call → Nat
  | [] => 0
  | Call.delay n :: t => delayCount t + n
  | _ :: t => delayCount t

/-- The calls of a loop that times out after `n` further delays: `n` reads,
each followed by a delay of one unit, and a last read. -/
def timeoutTrace (ad : Nat) : Nat → List Call
  | 0 => [Call.Chip_ADC_GetDataReg ad]
  | n + 1 => Call.Chip_ADC_GetDataReg ad :: Call.delay 1 :: timeoutTrace ad n

/-- Sample values of the macros, those of the vendor's header for the LPC82x:
bit 30, bit 31, and bits 4 to 15. -/
def lpc82x : Chip := ⟨1 <<< 30, 1 <<< 31, fun n => (n >>> 4) &&& 0xFFF⟩

end Adc

namespace Modem

/-! ## Arithmetic of the constants and of the bit operations -/

theorem samples_per_baud_eq : SAMPLES_PER_BAUD = 39 := by decide
theorem phase_delta_1200_eq : PHASE_DELTA_1200 = 6 := by decide
theorem phase_delta_2200_eq : PHASE_DELTA_2200 = 12 := by decide
theorem period_eq : PERIOD = 256 := by decide

theorem and_seven (x : Nat) : x &&& 7 = x % 8 :=
  Nat.and_pow_two_sub_one_eq_mod x 3

theorem and_one (x : Nat) : x &&& 1 = x % 2 :=
  Nat.and_pow_two_sub_one_eq_mod x 1

theorem shr_three (x : Nat) : x >>> 3 = x / 8 := by
  rw [Nat.shiftRight_eq_div_pow]

theorem shr_seven (x : Nat) : x >>> 7 = x / 128 := by
  rw [Nat.shiftRight_eq_div_pow]

/-! ## One invocation of the interrupt routine, field by field -/

section OneTick

variable (pkt : Packet) (s : State)

theorem tick_halt (h : s.packet_pos = pkt.modem_packet_size) :
    SCT_IRQHandler pkt s = ({ s with modem_busy := false },
      [Call.Chip_SCT_SetControl_HALT_L, Call.Chip_SCT_ClearEventFlag]) := by
  simp [SCT_IRQHandler, h]

theorem tick_busy (h : s.packet_pos ≠ pkt.modem_packet_size) :
    (SCT_IRQHandler pkt s).1.modem_busy = s.modem_busy := by
  simp only [SCT_IRQHandler, if_neg h, countSample, loadBit]
  split <;> split <;> (try split) <;> rfl

theorem tick_byte (h : s.packet_pos ≠ pkt.modem_packet_size) :
    (SCT_IRQHandler pkt s).1.current_byte =
      if s.current_sample_in_baud = 0 then (nextByte pkt s).1 else s.current_byte := by
  simp only [SCT_IRQHandler, if_neg h, countSample, loadBit]
  split <;> split <;> (try split) <;> simp_all

theorem tick_delta (h : s.packet_pos ≠ pkt.modem_packet_size) :
    (SCT_IRQHandler pkt s).1.phase_delta =
      if s.current_sample_in_baud = 0 ∧ (nextByte pkt s).1 % 2 = 0 then
        s.phase_delta ^^^ (PHASE_DELTA_1200 ^^^ PHASE_DELTA_2200)
      else s.phase_delta := by
  simp only [SCT_IRQHandler, if_neg h, countSample, loadBit, and_one, samples_per_baud_eq]
  split <;> split <;> (try split) <;> simp_all

theorem tick_phase (h : s.packet_pos ≠ pkt.modem_packet_size) :
    (SCT_IRQHandler pkt s).1.phase =
      (s.phase + (SCT_IRQHandler pkt s).1.phase_delta) % 2 ^ 32 := by
  simp only [SCT_IRQHandler, if_neg h, countSample, loadBit]
  split <;> split <;> (try split) <;> rfl

theorem tick_count (h : s.packet_pos ≠ pkt.modem_packet_size) :
    (SCT_IRQHandler pkt s).1.current_sample_in_baud =
      if (s.current_sample_in_baud + 1) % 2 ^ 16 = 39 then 0
      else (s.current_sample_in_baud + 1) % 2 ^ 16 := by
  simp only [SCT_IRQHandler, if_neg h, countSample, loadBit, samples_per_baud_eq]
  split <;> split <;> (try split) <;> simp_all

theorem tick_pos (h : s.packet_pos ≠ pkt.modem_packet_size) :
    (SCT_IRQHandler pkt s).1.packet_pos =
      if (s.current_sample_in_baud + 1) % 2 ^ 16 = 39 then (s.packet_pos + 1) % 2 ^ 32
      else s.packet_pos := by
  simp only [SCT_IRQHandler, if_neg h, countSample, loadBit, samples_per_baud_eq]
  split <;> split <;> (try split) <;> simp_all

theorem tick_calls (h : s.packet_pos ≠ pkt.modem_packet_size) :
    (SCT_IRQHandler pkt s).2 = (loadBit pkt s).2 ++
      [Call.setGPIO_pin ((SCT_IRQHandler pkt s).1.phase / 128 % 2),
       Call.Chip_SCT_ClearEventFlag] := by
  simp only [SCT_IRQHandler, if_neg h, countSample, and_one, shr_seven]
  split <;> rfl

theorem loadBit_calls :
    (loadBit pkt s).2 =
      if s.current_sample_in_baud = 0 ∧ s.packet_pos % 8 = 0 then
        [Call.readPacket (s.packet_pos / 8)] else [] := by
  simp only [loadBit, nextByte, and_seven, shr_three]
  split <;> (try split) <;> (try split) <;> simp_all

end OneTick

/-! ## Runs -/

theorem ticks_succ (pkt : Packet) (n : Nat) (s : State) :
    ticks pkt (n + 1) s = (SCT_IRQHandler pkt (ticks pkt n s)).1 := by
  induction n generalizing s with
  | zero => rfl
  | succ n ih => exact ih (SCT_IRQHandler pkt s).1

theorem ticks_add (pkt : Packet) (m n : Nat) (s : State) :
    ticks pkt (m + n) s = ticks pkt n (ticks pkt m s) := by
  induction m generalizing s with
  | zero => simp [ticks]
  | succ m ih => rw [Nat.add_right_comm, ticks, ih]; rfl

theorem packetBit_eq (pkt : Packet) (i : Nat) : packetBit pkt i = byteAt pkt i % 2 := rfl

theorem byteAt_succ (pkt : Packet) (i : Nat) (h : (i + 1) % 8 ≠ 0) :
    byteAt pkt i / 2 = byteAt pkt (i + 1) := by
  have h1 : (i + 1) / 8 = i / 8 := by omega
  have h2 : (i + 1) % 8 = i % 8 + 1 := by omega
  unfold byteAt
  rw [h1, h2, Nat.div_div_eq_div_mul, ← Nat.pow_succ]

theorem byteAt_zero_mod (pkt : Packet) (i : Nat) (h : i % 8 = 0) :
    byteAt pkt i = pkt.modem_packet (i / 8) % 2 ^ 8 := by
  unfold byteAt
  rw [h]; simp

/-- The byte register chosen at the first sample of baud interval `i`. -/
theorem nextByte_eq (pkt : Packet) (s : State) (i : Nat) (hp : s.packet_pos = i)
    (hb : i ≠ 0 → s.current_byte = byteAt pkt (i - 1)) :
    (nextByte pkt s).1 = byteAt pkt i := by
  unfold nextByte
  rw [and_seven, shr_three, hp]
  by_cases h8 : i % 8 = 0
  · rw [if_pos h8, byteAt_zero_mod pkt i h8]
  · rw [if_neg h8]
    have hi : i ≠ 0 := by rintro rfl; simp at h8
    obtain ⟨j, rfl⟩ := Nat.exists_eq_succ_of_ne_zero hi
    show s.current_byte / 2 = _
    rw [hb hi]
    exact byteAt_succ pkt j h8

theorem runInv_start (pkt : Packet) (s : State) : RunInv pkt 0 (txStart s) where
  pos := rfl
  cnt := rfl
  busy := rfl
  mid := by simp
  edge := by intro _; exact ⟨rfl, by simp⟩

theorem runInv_step (pkt : Packet) (hsz : pkt.modem_packet_size < 2 ^ 16) (k : Nat)
    (s : State) (hk : k < 39 * pkt.modem_packet_size) (h : RunInv pkt k s) :
    RunInv pkt (k + 1) (SCT_IRQHandler pkt s).1 := by
  have hlt : k / 39 < pkt.modem_packet_size := by omega
  have hne : s.packet_pos ≠ pkt.modem_packet_size := by rw [h.pos]; omega
  have hc := tick_count pkt s hne
  have hp := tick_pos pkt s hne
  have hd := tick_delta pkt s hne
  have hb := tick_byte pkt s hne
  have hbusy := tick_busy pkt s hne
  rw [h.cnt] at hc hp hd hb
  rw [h.pos] at hp
  have hmod : (k % 39 + 1) % 2 ^ 16 = k % 39 + 1 := by omega
  rw [hmod] at hc hp
  by_cases hj : k % 39 = 0
  · -- first sample of a baud interval
    obtain ⟨htone, hbyte⟩ := h.edge hj
    have hnb := nextByte_eq pkt s (k / 39) h.pos hbyte
    rw [hnb] at hd hb
    rw [if_pos hj] at hb
    have h1 : (k + 1) % 39 = 1 := by omega
    have h2 : (k + 1) / 39 = k / 39 := by omega
    refine ⟨?_, ?_, ?_, ?_, ?_⟩
    · rw [hp, h2, if_neg (by omega)]
    · rw [hc, h1, if_neg (by omega)]; omega
    · rw [hbusy, h.busy]
    · intro _
      rw [h2, hb]
      refine ⟨?_, rfl⟩
      rw [hd, htone, toneAfter, packetBit_eq]
      by_cases hz : byteAt pkt (k / 39) % 2 = 0
      · rw [if_pos ⟨hj, hz⟩, if_pos hz]
      · rw [if_neg (fun c => hz c.2), if_neg hz]
    · intro c; omega
  · -- a later sample of the baud interval
    obtain ⟨htone, hbyte⟩ := h.mid hj
    rw [if_neg (fun c => hj c.1)] at hd
    rw [if_neg hj] at hb
    by_cases hl : k % 39 + 1 = 39
    · have h1 : (k + 1) % 39 = 0 := by omega
      have h2 : (k + 1) / 39 = k / 39 + 1 := by omega
      refine ⟨?_, ?_, ?_, ?_, ?_⟩
      · rw [hp, h2, if_pos hl]; omega
      · rw [hc, h1, if_pos hl]
      · rw [hbusy, h.busy]
      · intro c; omega
      · intro _
        rw [h2, hd, hb]
        exact ⟨htone, fun _ => by simpa using hbyte⟩
    · have h1 : (k + 1) % 39 = k % 39 + 1 := by omega
      have h2 : (k + 1) / 39 = k / 39 := by omega
      refine ⟨?_, ?_, ?_, ?_, ?_⟩
      · rw [hp, h2, if_neg hl]
      · rw [hc, h1, if_neg hl]
      · rw [hbusy, h.busy]
      · intro _
        rw [h2, hd, hb]
        exact ⟨htone, hbyte⟩
      · intro c; omega

/-- The state after `k` invocations, for every `k` up to the end of the last
baud interval. -/
theorem runInv_ticks (pkt : Packet) (hsz : pkt.modem_packet_size < 2 ^ 16) (s : State)
    (k : Nat) (hk : k ≤ 39 * pkt.modem_packet_size) :
    RunInv pkt k (ticks pkt k (txStart s)) := by
  induction k with
  | zero => exact runInv_start pkt s
  | succ k ih =>
    rw [ticks_succ]
    exact runInv_step pkt hsz k _ (by omega) (ih (by omega))

/-! ## Consequences of the run invariant -/

/-- Before the end of the last baud interval the halting test fails. -/
theorem pos_ne_size (pkt : Packet) (hsz : pkt.modem_packet_size < 2 ^ 16) (s : State)
    (k : Nat) (hk : k < 39 * pkt.modem_packet_size) :
    (ticks pkt k (txStart s)).packet_pos ≠ pkt.modem_packet_size := by
  rw [(runInv_ticks pkt hsz s k (by omega)).pos]
  omega

/-- At the end of the last baud interval the halting test succeeds. -/
theorem pos_eq_size (pkt : Packet) (hsz : pkt.modem_packet_size < 2 ^ 16) (s : State) :
    (ticks pkt (39 * pkt.modem_packet_size) (txStart s)).packet_pos =
      pkt.modem_packet_size := by
  rw [(runInv_ticks pkt hsz s _ (le_refl _)).pos]
  omega

theorem samples_append (a b : List Call) : samples (a ++ b) = samples a ++ samples b := by
  induction a with
  | nil => rfl
  | cons c t ih => cases c <;> simp [samples, ih]

theorem reads_append (a b : List Call) : reads (a ++ b) = reads a ++ reads b := by
  induction a with
  | nil => rfl
  | cons c t ih => cases c <;> simp [reads, ih]

theorem samples_loadBit (pkt : Packet) (s : State) : samples (loadBit pkt s).2 = [] := by
  rw [loadBit_calls]
  split <;> rfl

/-- A tick that does not halt drives the pin exactly once, with bit 7 of the
phase it has just stored. -/
theorem samples_tick (pkt : Packet) (s : State) (h : s.packet_pos ≠ pkt.modem_packet_size) :
    samples (SCT_IRQHandler pkt s).2 = [(SCT_IRQHandler pkt s).1.phase / 128 % 2] := by
  rw [tick_calls pkt s h, samples_append, samples_loadBit]
  rfl

theorem ticksTrace_succ (pkt : Packet) (n : Nat) (s : State) :
    ticksTrace pkt (n + 1) s = ticksTrace pkt n s ++ tickCalls pkt s n := by
  induction n generalizing s with
  | zero => simp [ticksTrace, tickCalls, ticks]
  | succ n ih =>
    rw [ticksTrace, ih, ← List.append_assoc]
    rfl

/-- Once the halting test succeeds it succeeds for ever, and the state no
longer changes. -/
theorem ticks_halted (pkt : Packet) (m : Nat) (s : State)
    (h : s.packet_pos = pkt.modem_packet_size) :
    ticks pkt (m + 1) s = { s with modem_busy := false } := by
  induction m generalizing s with
  | zero => simp [ticks, tick_halt pkt s h]
  | succ m ih =>
    rw [ticks, tick_halt pkt s h]
    exact ih { s with modem_busy := false } h

/-- The number of samples driven during the first `n` ticks of a transmission,
up to the end of the last baud interval. -/
theorem samples_count (pkt : Packet) (hsz : pkt.modem_packet_size < 2 ^ 16) (s : State)
    (n : Nat) (hn : n ≤ 39 * pkt.modem_packet_size) :
    (samples (ticksTrace pkt n (txStart s))).length = n := by
  induction n with
  | zero => rfl
  | succ n ih =>
    rw [ticksTrace_succ, samples_append, List.length_append, ih (by omega), tickCalls,
      samples_tick pkt _ (pos_ne_size pkt hsz s n (by omega))]
    rfl

/-- The tone of sample `j` of baud interval `i`. -/
theorem toneUsed_eq (pkt : Packet) (hsz : pkt.modem_packet_size < 2 ^ 16) (s : State)
    (i j : Nat) (hi : i < pkt.modem_packet_size) (hj : j < 39) :
    toneUsed pkt (txStart s) (39 * i + j) = toneAfter pkt (i + 1) := by
  have inv := runInv_ticks pkt hsz s (39 * i + j + 1) (by omega)
  unfold toneUsed
  by_cases hl : j + 1 = 39
  · have h1 : (39 * i + j + 1) % 39 = 0 := by omega
    have h2 : (39 * i + j + 1) / 39 = i + 1 := by omega
    rw [(inv.edge h1).1, h2]
  · have h1 : (39 * i + j + 1) % 39 ≠ 0 := by omega
    have h2 : (39 * i + j + 1) / 39 = i := by omega
    rw [(inv.mid h1).1, h2]

theorem toneAfter_two (pkt : Packet) (n : Nat) :
    toneAfter pkt n = PHASE_DELTA_1200 ∨ toneAfter pkt n = PHASE_DELTA_2200 := by
  induction n with
  | zero => exact Or.inl rfl
  | succ n ih =>
    rw [toneAfter]
    split
    · rcases ih with h | h <;> rw [h]
      · exact Or.inr (by decide)
      · exact Or.inl (by decide)
    · exact ih

theorem packetBit_lt (pkt : Packet) (i : Nat) : packetBit pkt i < 2 :=
  Nat.mod_lt _ (by decide)

/-- The NRZI rule on the tones: a 0 bit changes the tone and a 1 bit keeps it. -/
theorem toneAfter_succ_ne (pkt : Packet) (n : Nat) :
    toneAfter pkt (n + 1) ≠ toneAfter pkt n ↔ packetBit pkt n = 0 := by
  rw [toneAfter]
  split
  · rename_i h
    simp only [h, iff_true]
    rcases toneAfter_two pkt n with h' | h' <;> rw [h'] <;> decide
  · rename_i h
    simp [h]

theorem toneAfter_mark (pkt : Packet) (n : Nat) :
    toneAfter pkt n = PHASE_DELTA_1200 ↔ Even (zeroBits pkt n) := by
  induction n with
  | zero => simp [toneAfter, zeroBits]
  | succ n ih =>
    rw [toneAfter, zeroBits]
    split
    · rw [Nat.even_add_one, ← ih]
      rcases toneAfter_two pkt n with h' | h' <;> rw [h'] <;> decide
    · simpa using ih

/-! ## Number of baud intervals -/

/-- C1, as stated, fails: with `modem_packet_size = 1` the transmission started
by `modem_flush_frame` drives 39 samples, one baud interval, and invocation
number 39 of the interrupt routine halts it; 8 baud intervals would be 312
samples. -/
theorem C1_counterexample :
    (fill 0xFF 1).modem_packet_size = 1 ∧
    samples (tickCalls (fill 0xFF 1) (txStart powerOn) 39) = [] ∧
    (ticks (fill 0xFF 1) 40 (txStart powerOn)).modem_busy = false ∧
    (samples (ticksTrace (fill 0xFF 1) 40 (txStart powerOn))).length = 39 ∧
    39 ≠ 1 * 8 * SAMPLES_PER_BAUD := by
  have hsz : (fill 0xFF 1).modem_packet_size < 2 ^ 16 := by decide
  have hp : (ticks (fill 0xFF 1) 39 (txStart powerOn)).packet_pos =
      (fill 0xFF 1).modem_packet_size := pos_eq_size (fill 0xFF 1) hsz powerOn
  have hc := samples_count (fill 0xFF 1) hsz powerOn 39 (by decide)
  refine ⟨rfl, ?_, ?_, ?_, by decide⟩
  · rw [tickCalls, tick_halt _ _ hp]; rfl
  · rw [ticks_succ, tick_halt _ _ hp]
  · rw [ticksTrace_succ, samples_append, List.length_append, hc, tickCalls,
      tick_halt _ _ hp]
    rfl

/-- C1, amended: `modem_packet_size` counts bits. From the state in which
`modem_flush_frame` starts a transmission, the first
`SAMPLES_PER_BAUD * modem_packet_size` invocations of the interrupt routine
each drive one sample and leave `modem_busy` set, invocation `k` being sample
`k mod SAMPLES_PER_BAUD` of baud interval `k div SAMPLES_PER_BAUD`; the next
invocation drives nothing, halts the timer and clears `modem_busy`; no later
invocation drives a sample. So exactly `modem_packet_size` baud intervals of
39 samples are emitted. -/
theorem C1_baud_count (pkt : Packet) (hsz : pkt.modem_packet_size < 2 ^ 16) (s : State) :
    SAMPLES_PER_BAUD = 39 ∧
    (∀ k, k < SAMPLES_PER_BAUD * pkt.modem_packet_size →
      (ticks pkt k (txStart s)).packet_pos = k / SAMPLES_PER_BAUD ∧
      (ticks pkt k (txStart s)).current_sample_in_baud = k % SAMPLES_PER_BAUD ∧
      (samples (tickCalls pkt (txStart s) k)).length = 1 ∧
      (ticks pkt (k + 1) (txStart s)).modem_busy = true) ∧
    samples (tickCalls pkt (txStart s) (SAMPLES_PER_BAUD * pkt.modem_packet_size)) = [] ∧
    Call.Chip_SCT_SetControl_HALT_L ∈
      tickCalls pkt (txStart s) (SAMPLES_PER_BAUD * pkt.modem_packet_size) ∧
    (ticks pkt (SAMPLES_PER_BAUD * pkt.modem_packet_size + 1) (txStart s)).modem_busy
      = false ∧
    (samples (ticksTrace pkt (SAMPLES_PER_BAUD * pkt.modem_packet_size + 1)
      (txStart s))).length = SAMPLES_PER_BAUD * pkt.modem_packet_size ∧
    (∀ m, samples (tickCalls pkt (txStart s)
      (SAMPLES_PER_BAUD * pkt.modem_packet_size + m)) = []) := by
  have hp := pos_eq_size pkt hsz s
  simp only [samples_per_baud_eq]
  refine ⟨trivial, ?_, ?_, ?_, ?_, ?_, ?_⟩
  · intro k hk
    have inv := runInv_ticks pkt hsz s k (by omega)
    refine ⟨inv.pos, inv.cnt, ?_, (runInv_ticks pkt hsz s (k + 1) (by omega)).busy⟩
    rw [tickCalls, samples_tick pkt _ (pos_ne_size pkt hsz s k hk)]
    rfl
  · rw [tickCalls, tick_halt _ _ hp]; rfl
  · rw [tickCalls, tick_halt _ _ hp]; simp
  · rw [ticks_succ, tick_halt _ _ hp]
  · rw [ticksTrace_succ, samples_append, List.length_append,
      samples_count pkt hsz s _ (le_refl _), tickCalls, tick_halt _ _ hp]
    rfl
  · intro m
    cases m with
    | zero => rw [tickCalls, Nat.add_zero, tick_halt _ _ hp]; rfl
    | succ m =>
      rw [tickCalls, ticks_add, ticks_halted pkt m _ hp]
      rw [tick_halt pkt { ticks pkt (39 * pkt.modem_packet_size) (txStart s) with
        modem_busy := false } hp]
      rfl

/-- C1, amended, on a packet of 2 bits: invocation 77 is the last sample of
baud interval 1, and invocation 78 halts. -/
theorem C1_baud_count_witness :
    (fill 0xFF 2).modem_packet_size < 2 ^ 16 ∧
    (ticks (fill 0xFF 2) 77 (txStart powerOn)).packet_pos = 77 / SAMPLES_PER_BAUD ∧
    (samples (tickCalls (fill 0xFF 2) (txStart powerOn) 77)).length = 1 ∧
    (ticks (fill 0xFF 2) (SAMPLES_PER_BAUD * (fill 0xFF 2).modem_packet_size + 1)
      (txStart powerOn)).modem_busy = false :=
  ⟨by decide,
   ((C1_baud_count (fill 0xFF 2) (by decide) powerOn).2.1 77 (by decide)).1,
   ((C1_baud_count (fill 0xFF 2) (by decide) powerOn).2.1 77 (by decide)).2.2.1,
   (C1_baud_count (fill 0xFF 2) (by decide) powerOn).2.2.2.2.1⟩

/-! ## NRZI -/

/-- C2: in a transmission started by `modem_flush_frame`, for every baud
interval `i` that is emitted and every sample `j` of it, the tone used differs
from the tone of baud interval `i - 1` (at any of its samples `j'`; the mark
tone before baud interval 0) exactly when bit `i mod 8` of byte `i div 8` of
the packet is 0, equals it exactly when that bit is 1, and is the mark tone
exactly when the number of 0 bits among bits `0..i` is even. -/
theorem C2_nrzi (pkt : Packet) (hsz : pkt.modem_packet_size < 2 ^ 16) (s : State)
    (i j j' : Nat) (hi : i < pkt.modem_packet_size) (hj : j < SAMPLES_PER_BAUD)
    (hj' : j' < SAMPLES_PER_BAUD) :
    (toneUsed pkt (txStart s) (SAMPLES_PER_BAUD * i + j) ≠ tonePrev pkt (txStart s) i j' ↔
      packetBit pkt i = 0) ∧
    (toneUsed pkt (txStart s) (SAMPLES_PER_BAUD * i + j) = tonePrev pkt (txStart s) i j' ↔
      packetBit pkt i = 1) ∧
    (toneUsed pkt (txStart s) (SAMPLES_PER_BAUD * i + j) = PHASE_DELTA_1200 ↔
      Even (zeroBits pkt (i + 1))) := by
  rw [samples_per_baud_eq] at hj hj'
  have hprev : tonePrev pkt (txStart s) i j' = toneAfter pkt i := by
    unfold tonePrev
    cases i with
    | zero => rw [if_pos rfl, toneAfter]
    | succ n =>
      rw [if_neg (Nat.succ_ne_zero n), samples_per_baud_eq, Nat.add_sub_cancel]
      exact toneUsed_eq pkt hsz s n j' (by omega) hj'
  rw [hprev, samples_per_baud_eq, toneUsed_eq pkt hsz s i j hi hj]
  have hne := toneAfter_succ_ne pkt i
  have hlt := packetBit_lt pkt i
  refine ⟨hne, ?_, toneAfter_mark pkt (i + 1)⟩
  constructor
  · intro h
    have : ¬ packetBit pkt i = 0 := fun c => (hne.2 c) h
    omega
  · intro h
    by_contra c
    have := hne.1 c
    omega

/-- C2 on the byte `0x02`, whose bit 0 is 0 and bit 1 is 1: the tone of baud
interval 1 equals the tone of baud interval 0. -/
theorem C2_nrzi_witness :
    (fill 0x02 8).modem_packet_size < 2 ^ 16 ∧ 1 < (fill 0x02 8).modem_packet_size ∧
    5 < SAMPLES_PER_BAUD ∧ 38 < SAMPLES_PER_BAUD ∧
    (toneUsed (fill 0x02 8) (txStart powerOn) (SAMPLES_PER_BAUD * 1 + 5) =
        tonePrev (fill 0x02 8) (txStart powerOn) 1 38 ↔
      packetBit (fill 0x02 8) 1 = 1) :=
  ⟨by decide, by decide, by decide, by decide,
   (C2_nrzi (fill 0x02 8) (by decide) powerOn 1 5 38 (by decide) (by decide)
     (by decide)).2.1⟩

/-! ## Phase accumulator -/

set_option maxRecDepth 100000 in
/-- C3, as stated, fails: sending the byte `0x00`, the space tone 12 is used
from the first sample; after 21 invocations the stored phase is 252 and after
the next it is 264, which is neither below `PERIOD = 256` nor equal to
`(252 + 12) mod PERIOD = 8`. -/
theorem C3_counterexample :
    (ticks (fill 0x00 8) 21 (txStart powerOn)).phase = 252 ∧
    toneUsed (fill 0x00 8) (txStart powerOn) 21 = 12 ∧
    samples (tickCalls (fill 0x00 8) (txStart powerOn) 21) = [0] ∧
    (ticks (fill 0x00 8) 22 (txStart powerOn)).phase = 264 ∧
    (252 + 12) % PERIOD = 8 ∧
    ¬ (ticks (fill 0x00 8) 22 (txStart powerOn)).phase < PERIOD := by
  decide

/-- C3, amended: the phase is a free-running 32-bit accumulator. On every
invocation that does not halt, the stored phase after it is the phase before
it plus the stride used on that invocation, modulo `2^32`; its residue modulo
`PERIOD` is the residue before plus the stride, modulo `PERIOD`; and the level
driven on the pin is the top bit of that residue. -/
theorem C3_phase (pkt : Packet) (s : State) (h : s.packet_pos ≠ pkt.modem_packet_size) :
    (SCT_IRQHandler pkt s).1.phase =
      (s.phase + (SCT_IRQHandler pkt s).1.phase_delta) % 2 ^ 32 ∧
    (SCT_IRQHandler pkt s).1.phase < 2 ^ 32 ∧
    (SCT_IRQHandler pkt s).1.phase % PERIOD =
      (s.phase % PERIOD + (SCT_IRQHandler pkt s).1.phase_delta) % PERIOD ∧
    samples (SCT_IRQHandler pkt s).2 = [(SCT_IRQHandler pkt s).1.phase % PERIOD / 2 ^ 7] := by
  have hp := tick_phase pkt s h
  refine ⟨hp, ?_, ?_, ?_⟩
  · rw [hp]; exact Nat.mod_lt _ (by decide)
  · rw [period_eq, hp]; omega
  · rw [samples_tick pkt s h, period_eq]
    congr 1
    omega

/-- C3, amended, on the first invocation of a transmission of the byte `0xFF`:
the phase goes from 0 to 6. -/
theorem C3_phase_witness :
    (txStart powerOn).packet_pos ≠ (fill 0xFF 8).modem_packet_size ∧
    (SCT_IRQHandler (fill 0xFF 8) (txStart powerOn)).1.phase =
      ((txStart powerOn).phase +
        (SCT_IRQHandler (fill 0xFF 8) (txStart powerOn)).1.phase_delta) % 2 ^ 32 :=
  ⟨by decide, (C3_phase (fill 0xFF 8) (txStart powerOn) (by decide)).1⟩

/-! ## Completion -/

/-- C4: an invocation of the interrupt routine halts the timer, and clears a
set `modem_busy`, exactly when `packet_pos` equals `modem_packet_size` at its
entry; the halting invocation drives no sample and changes no field but
`modem_busy`; every other invocation drives exactly one sample and leaves
`modem_busy` as it was. In a transmission started by `modem_flush_frame` the
test first succeeds at invocation `SAMPLES_PER_BAUD * modem_packet_size`, so
that up to and including the halting invocation exactly
`modem_packet_size * SAMPLES_PER_BAUD` samples are driven. -/
theorem C4_completion (pkt : Packet) (hsz : pkt.modem_packet_size < 2 ^ 16) (s : State) :
    (∀ t : State, t.modem_busy = true →
      ((SCT_IRQHandler pkt t).1.modem_busy = false ↔
        t.packet_pos = pkt.modem_packet_size)) ∧
    (∀ t : State, Call.Chip_SCT_SetControl_HALT_L ∈ (SCT_IRQHandler pkt t).2 ↔
      t.packet_pos = pkt.modem_packet_size) ∧
    (∀ t : State, t.packet_pos = pkt.modem_packet_size →
      samples (SCT_IRQHandler pkt t).2 = [] ∧
      (SCT_IRQHandler pkt t).1.phase = t.phase ∧
      (SCT_IRQHandler pkt t).1.phase_delta = t.phase_delta ∧
      (SCT_IRQHandler pkt t).1.current_byte = t.current_byte ∧
      (SCT_IRQHandler pkt t).1.current_sample_in_baud = t.current_sample_in_baud ∧
      (SCT_IRQHandler pkt t).1.packet_pos = t.packet_pos) ∧
    (∀ t : State, t.packet_pos ≠ pkt.modem_packet_size →
      (samples (SCT_IRQHandler pkt t).2).length = 1 ∧
      (SCT_IRQHandler pkt t).1.modem_busy = t.modem_busy) ∧
    (∀ k, k < SAMPLES_PER_BAUD * pkt.modem_packet_size →
      (ticks pkt k (txStart s)).packet_pos ≠ pkt.modem_packet_size ∧
      (ticks pkt (k + 1) (txStart s)).modem_busy = true) ∧
    (ticks pkt (SAMPLES_PER_BAUD * pkt.modem_packet_size) (txStart s)).packet_pos =
      pkt.modem_packet_size ∧
    (ticks pkt (SAMPLES_PER_BAUD * pkt.modem_packet_size + 1) (txStart s)).modem_busy
      = false ∧
    (samples (ticksTrace pkt (SAMPLES_PER_BAUD * pkt.modem_packet_size + 1)
      (txStart s))).length = pkt.modem_packet_size * SAMPLES_PER_BAUD := by
  have hp := pos_eq_size pkt hsz s
  simp only [samples_per_baud_eq]
  refine ⟨?_, ?_, ?_, ?_, ?_, hp, ?_, ?_⟩
  · intro t ht
    by_cases h : t.packet_pos = pkt.modem_packet_size
    · simp [tick_halt pkt t h, h]
    · simp [tick_busy pkt t h, ht, h]
  · intro t
    by_cases h : t.packet_pos = pkt.modem_packet_size
    · simp [tick_halt pkt t h, h]
    · rw [tick_calls pkt t h, loadBit_calls]
      split <;> simp [h]
  · intro t h
    rw [tick_halt pkt t h]
    exact ⟨rfl, rfl, rfl, rfl, rfl, rfl⟩
  · intro t h
    rw [samples_tick pkt t h]
    exact ⟨rfl, tick_busy pkt t h⟩
  · intro k hk
    exact ⟨pos_ne_size pkt hsz s k hk, (runInv_ticks pkt hsz s (k + 1) (by omega)).busy⟩
  · rw [ticks_succ, tick_halt _ _ hp]
  · rw [ticksTrace_succ, samples_append, List.length_append,
      samples_count pkt hsz s _ (le_refl _), tickCalls, tick_halt _ _ hp]
    simp [samples, Nat.mul_comm]

/-- C4 on a packet of one bit: invocation 38, the last of the baud interval,
does not meet the halting test, and invocation 39 clears `modem_busy`. -/
theorem C4_completion_witness :
    (fill 0x00 1).modem_packet_size < 2 ^ 16 ∧
    (ticks (fill 0x00 1) 38 (txStart powerOn)).packet_pos ≠
      (fill 0x00 1).modem_packet_size ∧
    (ticks (fill 0x00 1) (SAMPLES_PER_BAUD * (fill 0x00 1).modem_packet_size + 1)
      (txStart powerOn)).modem_busy = false :=
  ⟨by decide,
   ((C4_completion (fill 0x00 1) (by decide) powerOn).2.2.2.2.1 38 (by decide)).1,
   (C4_completion (fill 0x00 1) (by decide) powerOn).2.2.2.2.2.2.1⟩

/-! ## Reset -/

/-- C5: whatever the module state was, the transmission of `modem_flush_frame`
starts with `phase = 0`, the mark tone, `current_sample_in_baud = 0` and
`packet_pos = 0` (the wait loop of `modem_flush_frame` runs from that state);
the reset of lines 70-73 applied twice gives the state it gives when applied
once, and so does the whole start. -/
theorem C5_reset (pkt : Packet) (gps1 gps2 : Bool) (fuel : Nat) (s : State) :
    (resetModulation s).phase = 0 ∧
    (resetModulation s).phase_delta = PHASE_DELTA_1200 ∧
    (resetModulation s).current_sample_in_baud = 0 ∧
    (resetModulation s).packet_pos = 0 ∧
    (txStart s).phase = 0 ∧
    (txStart s).phase_delta = PHASE_DELTA_1200 ∧
    (txStart s).current_sample_in_baud = 0 ∧
    (txStart s).packet_pos = 0 ∧
    resetModulation (resetModulation s) = resetModulation s ∧
    txStart (txStart s) = txStart s ∧
    (modem_flush_frame pkt gps1 gps2 fuel s).map Prod.fst =
      (waitNotBusy pkt fuel (txStart s)).map Prod.fst :=
  ⟨rfl, rfl, rfl, rfl, rfl, rfl, rfl, rfl, rfl, rfl, by
    simp [modem_flush_frame, txStart, Function.comp_def]⟩

/-! ## The wait loop of `modem_flush_frame` -/

theorem waitNotBusy_idle (pkt : Packet) (fuel : Nat) (s : State)
    (h : s.modem_busy = false) : waitNotBusy pkt fuel s = some (s, []) := by
  cases fuel <;> simp [waitNotBusy, h]

/-- While the flag stays set, the wait loop follows the invocations of the
interrupt routine. -/
theorem waitNotBusy_unroll (pkt : Packet) (n fuel : Nat) (s : State)
    (h : ∀ k, k < n → (ticks pkt k s).modem_busy = true) :
    waitNotBusy pkt (n + fuel) s =
      (waitNotBusy pkt fuel (ticks pkt n s)).map
        (fun r => (r.1, waitTrace pkt n s ++ r.2)) := by
  induction n generalizing s with
  | zero => simp [ticks, waitTrace]
  | succ n ih =>
    have h0 : s.modem_busy = true := h 0 (Nat.succ_pos n)
    have hs : ∀ k, k < n → (ticks pkt k (SCT_IRQHandler pkt s).1).modem_busy = true :=
      fun k hk => h (k + 1) (by omega)
    rw [Nat.add_right_comm, waitNotBusy, if_pos h0, ih _ hs, ticks, waitTrace]
    simp [Function.comp_def]

/-- With enough fuel the wait loop of a transmission ends, after
`39 * modem_packet_size + 1` invocations of the interrupt routine. -/
theorem waitNotBusy_done (pkt : Packet) (hsz : pkt.modem_packet_size < 2 ^ 16) (s : State)
    (extra : Nat) :
    waitNotBusy pkt (39 * pkt.modem_packet_size + 1 + extra) (txStart s) =
      some ({ ticks pkt (39 * pkt.modem_packet_size) (txStart s) with modem_busy := false },
        waitTrace pkt (39 * pkt.modem_packet_size + 1) (txStart s)) := by
  have hb : ∀ k, k < 39 * pkt.modem_packet_size + 1 →
      (ticks pkt k (txStart s)).modem_busy = true :=
    fun k hk => (runInv_ticks pkt hsz s k (by omega)).busy
  rw [waitNotBusy_unroll pkt _ extra _ hb, ticks_succ,
    tick_halt _ _ (pos_eq_size pkt hsz s), waitNotBusy_idle _ _ _ rfl]
  simp

/-- The first invocation after the start overwrites `current_byte`, the one
field the start leaves alone, unless it halts at once. -/
theorem first_tick_indep (pkt : Packet) (h : pkt.modem_packet_size ≠ 0) (s1 s2 : State) :
    SCT_IRQHandler pkt (txStart s1) = SCT_IRQHandler pkt (txStart s2) := by
  have h' : ¬ (0 = pkt.modem_packet_size) := fun c => h c.symm
  simp [SCT_IRQHandler, txStart, Modem_Init, resetModulation, loadBit, nextByte,
    countSample, h']

theorem first_tick_empty (pkt : Packet) (h : pkt.modem_packet_size = 0) (s : State) :
    SCT_IRQHandler pkt (txStart s) = ({ txStart s with modem_busy := false },
      [Call.Chip_SCT_SetControl_HALT_L, Call.Chip_SCT_ClearEventFlag]) :=
  tick_halt pkt (txStart s) h.symm

/-- The calls of every invocation, and the flag after it, do not depend on the
state before the start. -/
theorem run_indep (pkt : Packet) (s1 s2 : State) (k : Nat) :
    tickCalls pkt (txStart s1) k = tickCalls pkt (txStart s2) k ∧
    (ticks pkt (k + 1) (txStart s1)).modem_busy =
      (ticks pkt (k + 1) (txStart s2)).modem_busy := by
  by_cases h : pkt.modem_packet_size = 0
  · have e1 : (txStart s1).packet_pos = pkt.modem_packet_size := h.symm
    have e2 : (txStart s2).packet_pos = pkt.modem_packet_size := h.symm
    refine ⟨?_, by rw [ticks_halted pkt k _ e1, ticks_halted pkt k _ e2]⟩
    cases k with
    | zero => simp [tickCalls, ticks, first_tick_empty pkt h]
    | succ k =>
      rw [tickCalls, tickCalls, ticks_halted pkt k _ e1, ticks_halted pkt k _ e2,
        tick_halt pkt { txStart s1 with modem_busy := false } e1,
        tick_halt pkt { txStart s2 with modem_busy := false } e2]
  · have e := first_tick_indep pkt h s1 s2
    have e' : ∀ n, ticks pkt (n + 1) (txStart s1) = ticks pkt (n + 1) (txStart s2) := by
      intro n; rw [ticks, ticks, e]
    refine ⟨?_, by rw [e']⟩
    cases k with
    | zero => simp [tickCalls, ticks, e]
    | succ k => rw [tickCalls, tickCalls, e']

/-- The calls of the wait loop do not depend on the state before the start. -/
theorem wait_indep (pkt : Packet) (s1 s2 : State) (fuel : Nat) :
    (waitNotBusy pkt fuel (txStart s1)).map Prod.snd =
      (waitNotBusy pkt fuel (txStart s2)).map Prod.snd := by
  cases fuel with
  | zero => simp [waitNotBusy, txStart, Modem_Init]
  | succ f =>
    have b1 : (txStart s1).modem_busy = true := rfl
    have b2 : (txStart s2).modem_busy = true := rfl
    rw [waitNotBusy, waitNotBusy, if_pos b1, if_pos b2]
    by_cases h : pkt.modem_packet_size = 0
    · rw [first_tick_empty pkt h s1, first_tick_empty pkt h s2,
        waitNotBusy_idle _ _ _ rfl, waitNotBusy_idle _ _ _ rfl]
      rfl
    · rw [first_tick_indep pkt h s1 s2]

/-! ## No state carried between transmissions -/

/-- C6: for any two module states before `modem_flush_frame`, the same packet
and the same answers of `gpsIsOn()`, the two runs of `modem_flush_frame` make
the same calls in the same order (so the same pin levels and the same number
of waits); invocation by invocation the interrupt routine makes the same
calls and leaves the same `modem_busy`; and, `modem_packet_size` being a
`uint16_t`, the run ends once the fuel covers
`SAMPLES_PER_BAUD * modem_packet_size + 1` invocations. The two states may
differ in `current_byte`, which the reset does not write. -/
theorem C6_no_carry (pkt : Packet) (s1 s2 : State) (gps1 gps2 : Bool) (fuel : Nat) :
    (modem_flush_frame pkt gps1 gps2 fuel s1).map Prod.snd =
      (modem_flush_frame pkt gps1 gps2 fuel s2).map Prod.snd ∧
    (∀ k, tickCalls pkt (txStart s1) k = tickCalls pkt (txStart s2) k ∧
      (ticks pkt (k + 1) (txStart s1)).modem_busy =
        (ticks pkt (k + 1) (txStart s2)).modem_busy) ∧
    (pkt.modem_packet_size < 2 ^ 16 →
      (modem_flush_frame pkt gps1 gps2
        (SAMPLES_PER_BAUD * pkt.modem_packet_size + 1 + fuel) s1).isSome = true) := by
  refine ⟨?_, run_indep pkt s1 s2, ?_⟩
  · have h := wait_indep pkt s1 s2 fuel
    unfold modem_flush_frame
    simp only [Option.map_map]
    cases h1 : waitNotBusy pkt fuel (txStart s1) <;>
      cases h2 : waitNotBusy pkt fuel (txStart s2) <;>
      simp_all [txStart, Modem_Init]
  · intro hsz
    have h := waitNotBusy_done pkt hsz s1 fuel
    unfold modem_flush_frame
    rw [samples_per_baud_eq]
    unfold txStart at h
    simp [h]

/-- C6 on the byte `0x02` sent from two states that differ in every field. -/
theorem C6_no_carry_witness :
    (fill 0x02 8).modem_packet_size < 2 ^ 16 ∧
    (modem_flush_frame (fill 0x02 8) true false
      (SAMPLES_PER_BAUD * (fill 0x02 8).modem_packet_size + 1 + 0) powerOn).isSome = true ∧
    (modem_flush_frame (fill 0x02 8) true false 0 powerOn).map Prod.snd =
      (modem_flush_frame (fill 0x02 8) true false 0 ⟨0xAB, 17, 12, 200, 5, true⟩).map
        Prod.snd :=
  ⟨by decide,
   (C6_no_carry (fill 0x02 8) powerOn ⟨0xAB, 17, 12, 200, 5, true⟩ true false 0).2.2
     (by decide),
   (C6_no_carry (fill 0x02 8) powerOn ⟨0xAB, 17, 12, 200, 5, true⟩ true false 0).1⟩

/-! ## Zero-length packet -/

/-- C7: with `modem_packet_size = 0` the transmission starts with `modem_busy`
set, and the first invocation of the interrupt routine clears it while it
only halts the timer and clears the event flag: no sample is driven, the
buffer is not read, and `phase`, `phase_delta` and `packet_pos` keep their
reset values. `modem_flush_frame`, given fuel for that one wait, returns
after powering the radio up (`Si446x_Init`, `radioTune`) and shutting it
down (`radioShutdown`), with no `setGPIO` call in between. -/
theorem C7_zero_length (pkt : Packet) (h0 : pkt.modem_packet_size = 0) (s : State)
    (gps1 gps2 : Bool) (fuel : Nat) :
    (txStart s).modem_busy = true ∧
    SCT_IRQHandler pkt (txStart s) = ({ txStart s with modem_busy := false },
      [Call.Chip_SCT_SetControl_HALT_L, Call.Chip_SCT_ClearEventFlag]) ∧
    samples (tickCalls pkt (txStart s) 0) = [] ∧
    reads (tickCalls pkt (txStart s) 0) = [] ∧
    (ticks pkt 1 (txStart s)).modem_busy = false ∧
    (ticks pkt 1 (txStart s)).phase = 0 ∧
    (ticks pkt 1 (txStart s)).phase_delta = PHASE_DELTA_1200 ∧
    (ticks pkt 1 (txStart s)).packet_pos = 0 ∧
    modem_flush_frame pkt gps1 gps2 (fuel + 1) s =
      some ({ txStart s with modem_busy := false },
        Call.gpsIsOn gps1 :: (if gps1 then [Call.GPS_hibernate_uart] else []) ++
        [Call.Si446x_Init, Call.gps_get_region_frequency, Call.radioTune, Call.SCT_setup,
         Call.NVIC_EnableIRQ, Call.Chip_SCT_ClearControl_HALT_L,
         Call.WFI, Call.Chip_SCT_SetControl_HALT_L, Call.Chip_SCT_ClearEventFlag,
         Call.radioShutdown, Call.gpsIsOn gps2] ++
        (if gps2 then [Call.GPS_wake_uart] else [])) := by
  have ht := first_tick_empty pkt h0 s
  refine ⟨rfl, ht, ?_, ?_, ?_, ?_, ?_, ?_, ?_⟩
  · rw [tickCalls, ticks, ht]; rfl
  · rw [tickCalls, ticks, ht]; rfl
  · rw [ticks, ticks, ht]
  · rw [ticks, ticks, ht]; rfl
  · rw [ticks, ticks, ht]; rfl
  · rw [ticks, ticks, ht]; rfl
  · have hw : waitNotBusy pkt (fuel + 1) (txStart s) =
        some ({ txStart s with modem_busy := false },
          [Call.WFI, Call.Chip_SCT_SetControl_HALT_L, Call.Chip_SCT_ClearEventFlag]) := by
      have b : (txStart s).modem_busy = true := rfl
      rw [waitNotBusy, if_pos b, ht, waitNotBusy_idle _ _ _ rfl]
      rfl
    unfold txStart at hw
    unfold modem_flush_frame
    simp only [hw, Option.map_some']
    cases gps1 <;> cases gps2 <;> simp [Modem_Init, txStart]

/-- C7 on an empty packet, the serial consumer being active. -/
theorem C7_zero_length_witness :
    (fill 0x00 0).modem_packet_size = 0 ∧
    modem_flush_frame (fill 0x00 0) true true (0 + 1) powerOn =
      some ({ txStart powerOn with modem_busy := false },
        Call.gpsIsOn true :: (if true then [Call.GPS_hibernate_uart] else []) ++
        [Call.Si446x_Init, Call.gps_get_region_frequency, Call.radioTune, Call.SCT_setup,
         Call.NVIC_EnableIRQ, Call.Chip_SCT_ClearControl_HALT_L,
         Call.WFI, Call.Chip_SCT_SetControl_HALT_L, Call.Chip_SCT_ClearEventFlag,
         Call.radioShutdown, Call.gpsIsOn true] ++
        (if true then [Call.GPS_wake_uart] else [])) :=
  ⟨rfl, (C7_zero_length (fill 0x00 0) rfl powerOn true true 0).2.2.2.2.2.2.2.2⟩

/-! ## Invariants of the reachable states -/

theorem counters_step (pkt : Packet) (s : State)
    (h : s.current_sample_in_baud < 39 ∧ s.packet_pos ≤ pkt.modem_packet_size) :
    (SCT_IRQHandler pkt s).1.current_sample_in_baud < 39 ∧
    (SCT_IRQHandler pkt s).1.packet_pos ≤ pkt.modem_packet_size := by
  by_cases hp : s.packet_pos = pkt.modem_packet_size
  · rw [tick_halt pkt s hp]; exact h
  · rw [tick_count pkt s hp, tick_pos pkt s hp]
    have hm : (s.current_sample_in_baud + 1) % 2 ^ 16 = s.current_sample_in_baud + 1 := by
      omega
    have hle : (s.packet_pos + 1) % 2 ^ 32 ≤ s.packet_pos + 1 := Nat.mod_le _ _
    rw [hm]
    split <;> omega

theorem counters_ticks (pkt : Packet) (s : State) (k : Nat) :
    (ticks pkt k (txStart s)).current_sample_in_baud < 39 ∧
    (ticks pkt k (txStart s)).packet_pos ≤ pkt.modem_packet_size := by
  induction k with
  | zero => exact ⟨Nat.zero_lt_succ 38, Nat.zero_le _⟩
  | succ k ih => rw [ticks_succ]; exact counters_step pkt _ ih

theorem two_tone_step (pkt : Packet) (s : State)
    (h : s.phase_delta = PHASE_DELTA_1200 ∨ s.phase_delta = PHASE_DELTA_2200) :
    (SCT_IRQHandler pkt s).1.phase_delta = PHASE_DELTA_1200 ∨
    (SCT_IRQHandler pkt s).1.phase_delta = PHASE_DELTA_2200 := by
  by_cases hp : s.packet_pos = pkt.modem_packet_size
  · rw [tick_halt pkt s hp]; exact h
  · rw [tick_delta pkt s hp]
    split
    · rcases h with h | h <;> rw [h]
      · exact Or.inr (by decide)
      · exact Or.inl (by decide)
    · exact h

theorem two_tone_ticks (pkt : Packet) (s : State) (k : Nat) :
    (ticks pkt k (txStart s)).phase_delta = PHASE_DELTA_1200 ∨
    (ticks pkt k (txStart s)).phase_delta = PHASE_DELTA_2200 := by
  induction k with
  | zero => exact Or.inl rfl
  | succ k ih => rw [ticks_succ]; exact two_tone_step pkt _ ih

/-- C8: in every state reached from the start of a transmission by any number
of invocations of the interrupt routine, `current_sample_in_baud` is below
`SAMPLES_PER_BAUD = 39` and `packet_pos` is at most `modem_packet_size`, the
position at which the routine halts, hence at most `modem_packet_size * 8`. -/
theorem C8_counters (pkt : Packet) (s : State) (k : Nat) :
    SAMPLES_PER_BAUD = 39 ∧
    (ticks pkt k (txStart s)).current_sample_in_baud < SAMPLES_PER_BAUD ∧
    (ticks pkt k (txStart s)).packet_pos ≤ pkt.modem_packet_size ∧
    (ticks pkt k (txStart s)).packet_pos ≤ pkt.modem_packet_size * 8 := by
  have h := counters_ticks pkt s k
  rw [samples_per_baud_eq]
  exact ⟨rfl, h.1, h.2, by omega⟩

/-- C9: in every state reached from the start of a transmission `phase_delta`
is `PHASE_DELTA_1200` or `PHASE_DELTA_2200`; these are 6 and 12, distinct; the
XOR toggle of line 110 turns each into the other, and applied twice restores
any stride. -/
theorem C9_two_tone (pkt : Packet) (s : State) (k x : Nat) :
    ((ticks pkt k (txStart s)).phase_delta = PHASE_DELTA_1200 ∨
      (ticks pkt k (txStart s)).phase_delta = PHASE_DELTA_2200) ∧
    PHASE_DELTA_1200 = 6 ∧ PHASE_DELTA_2200 = 12 ∧
    PHASE_DELTA_1200 ≠ PHASE_DELTA_2200 ∧
    PHASE_DELTA_1200 ^^^ (PHASE_DELTA_1200 ^^^ PHASE_DELTA_2200) = PHASE_DELTA_2200 ∧
    PHASE_DELTA_2200 ^^^ (PHASE_DELTA_1200 ^^^ PHASE_DELTA_2200) = PHASE_DELTA_1200 ∧
    (x ^^^ (PHASE_DELTA_1200 ^^^ PHASE_DELTA_2200)) ^^^
      (PHASE_DELTA_1200 ^^^ PHASE_DELTA_2200) = x := by
  refine ⟨two_tone_ticks pkt s k, by decide, by decide, by decide, by decide, by decide, ?_⟩
  rw [Nat.xor_assoc, Nat.xor_self, Nat.xor_zero]

/-! ## Scenario: the byte `0x00` -/

/-- The tone at the boundary before baud interval `i`. -/
theorem tone_at_edge (pkt : Packet) (hsz : pkt.modem_packet_size < 2 ^ 16) (s : State)
    (i : Nat) (hi : i ≤ pkt.modem_packet_size) :
    (ticks pkt (39 * i) (txStart s)).phase_delta = toneAfter pkt i := by
  have inv := runInv_ticks pkt hsz s (39 * i) (by omega)
  have h1 : 39 * i % 39 = 0 := by omega
  have h2 : 39 * i / 39 = i := by omega
  rw [(inv.edge h1).1, h2]

/-- The tones of a run of 0 bits alternate, starting with the space tone. -/
theorem toneAfter_zeros (pkt : Packet) (n : Nat) (h : ∀ m, m < n → packetBit pkt m = 0) :
    toneAfter pkt n = if n % 2 = 0 then PHASE_DELTA_1200 else PHASE_DELTA_2200 := by
  induction n with
  | zero => rw [toneAfter]; rfl
  | succ n ih =>
    rw [toneAfter, if_pos (h n (Nat.lt_succ_self n)), ih (fun m hm => h m (by omega))]
    by_cases hn : n % 2 = 0
    · have : ¬ (n + 1) % 2 = 0 := by omega
      rw [if_pos hn, if_neg this]; decide
    · have : (n + 1) % 2 = 0 := by omega
      rw [if_neg hn, if_pos this]; decide

/-- C10: when `modem_packet[0] = 0x00` is sent over its 8 baud intervals
(`modem_packet_size = 8`), every sample `j` of baud interval `i` uses the
space tone for even `i` and the mark tone for odd `i`; the first invocation of
every baud interval changes `phase_delta`, and the tone of the interval
differs from that of the interval before (the mark tone before interval 0),
which makes 8 toggles; the tone is the mark tone when the eighth interval is
over and still when the transmission has halted. -/
theorem C10_zero_byte (pkt : Packet) (hb : pkt.modem_packet 0 = 0x00)
    (hs : pkt.modem_packet_size = 8) (s : State) (i j : Nat) (hi : i < 8)
    (hj : j < SAMPLES_PER_BAUD) :
    toneUsed pkt (txStart s) (SAMPLES_PER_BAUD * i + j) =
      (if i % 2 = 0 then PHASE_DELTA_2200 else PHASE_DELTA_1200) ∧
    toneUsed pkt (txStart s) (SAMPLES_PER_BAUD * i) ≠
      (ticks pkt (SAMPLES_PER_BAUD * i) (txStart s)).phase_delta ∧
    toneUsed pkt (txStart s) (SAMPLES_PER_BAUD * i + j) ≠ tonePrev pkt (txStart s) i j ∧
    (ticks pkt (SAMPLES_PER_BAUD * 8) (txStart s)).phase_delta = PHASE_DELTA_1200 ∧
    (ticks pkt (SAMPLES_PER_BAUD * 8 + 1) (txStart s)).phase_delta = PHASE_DELTA_1200 ∧
    (ticks pkt (SAMPLES_PER_BAUD * 8 + 1) (txStart s)).modem_busy = false := by
  have hsz : pkt.modem_packet_size < 2 ^ 16 := by rw [hs]; decide
  have hbit : ∀ m, m < 8 → packetBit pkt m = 0 := by
    intro m hm
    have : m / 8 = 0 := by omega
    simp [packetBit, this, hb]
  have hta : ∀ n, n ≤ 8 →
      toneAfter pkt n = if n % 2 = 0 then PHASE_DELTA_1200 else PHASE_DELTA_2200 :=
    fun n hn => toneAfter_zeros pkt n (fun m hm => hbit m (by omega))
  have hne : ∀ n, n < 8 → toneAfter pkt (n + 1) ≠ toneAfter pkt n :=
    fun n hn => (toneAfter_succ_ne pkt n).2 (hbit n hn)
  have hprev : tonePrev pkt (txStart s) i j = toneAfter pkt i := by
    unfold tonePrev
    cases i with
    | zero => rw [if_pos rfl, toneAfter]
    | succ n =>
      rw [if_neg (Nat.succ_ne_zero n), samples_per_baud_eq, Nat.add_sub_cancel]
      exact toneUsed_eq pkt hsz s n j (by omega) (by rw [← samples_per_baud_eq]; exact hj)
  have hend : (ticks pkt (39 * 8) (txStart s)).phase_delta = PHASE_DELTA_1200 := by
    rw [tone_at_edge pkt hsz s 8 (by omega), hta 8 (le_refl 8)]; rfl
  have hpos : (ticks pkt (39 * 8) (txStart s)).packet_pos = pkt.modem_packet_size := by
    have := pos_eq_size pkt hsz s
    rw [hs] at this
    rw [this, hs]
  rw [hprev]
  rw [samples_per_baud_eq] at hj ⊢
  have h0 := toneUsed_eq pkt hsz s i 0 (by omega) (by decide)
  rw [Nat.add_zero] at h0
  rw [toneUsed_eq pkt hsz s i j (by omega) hj, h0, tone_at_edge pkt hsz s i (by omega)]
  refine ⟨?_, hne i hi, hne i hi, hend, ?_, ?_⟩
  · rw [hta (i + 1) (by omega)]
    by_cases h2 : i % 2 = 0
    · have : ¬ (i + 1) % 2 = 0 := by omega
      rw [if_pos h2, if_neg this]
    · have : (i + 1) % 2 = 0 := by omega
      rw [if_neg h2, if_pos this]
  · rw [ticks_succ, tick_halt _ _ hpos]
    dsimp only
    exact hend
  · rw [ticks_succ, tick_halt _ _ hpos]

/-- C10 at sample 20 of baud interval 4 of the byte `0x00`: the space tone. -/
theorem C10_zero_byte_witness :
    (fill 0x00 8).modem_packet 0 = 0x00 ∧ (fill 0x00 8).modem_packet_size = 8 ∧
    4 < 8 ∧ 20 < SAMPLES_PER_BAUD ∧
    toneUsed (fill 0x00 8) (txStart powerOn) (SAMPLES_PER_BAUD * 4 + 20) =
      (if 4 % 2 = 0 then PHASE_DELTA_2200 else PHASE_DELTA_1200) ∧
    (ticks (fill 0x00 8) (SAMPLES_PER_BAUD * 8 + 1) (txStart powerOn)).modem_busy = false :=
  ⟨rfl, rfl, by decide, by decide,
   (C10_zero_byte (fill 0x00 8) rfl rfl powerOn 4 20 (by decide) (by decide)).1,
   (C10_zero_byte (fill 0x00 8) rfl rfl powerOn 4 20 (by decide) (by decide)).2.2.2.2.2⟩

/-! ## Scenario: the byte `0xFF` -/

/-- The tone of invocation `k`, for every invocation that drives a sample. -/
theorem toneUsed_tick (pkt : Packet) (hsz : pkt.modem_packet_size < 2 ^ 16) (s : State)
    (k : Nat) (hk : k < 39 * pkt.modem_packet_size) :
    toneUsed pkt (txStart s) k = toneAfter pkt (k / 39 + 1) := by
  have h := toneUsed_eq pkt hsz s (k / 39) (k % 39) (by omega) (Nat.mod_lt _ (by decide))
  rwa [Nat.div_add_mod] at h

/-- The tones of a run of 1 bits: the mark tone throughout. -/
theorem toneAfter_ones (pkt : Packet) (n : Nat) (h : ∀ m, m < n → packetBit pkt m = 1) :
    toneAfter pkt n = PHASE_DELTA_1200 := by
  induction n with
  | zero => rw [toneAfter]
  | succ n ih =>
    have h1 : ¬ packetBit pkt n = 0 := by rw [h n (Nat.lt_succ_self n)]; decide
    rw [toneAfter, if_neg h1, ih (fun m hm => h m (by omega))]

/-- The phase after invocation `k` of a transmission, in terms of the phase
before it. -/
theorem phase_tick (pkt : Packet) (hsz : pkt.modem_packet_size < 2 ^ 16) (s : State)
    (k : Nat) (hk : k < 39 * pkt.modem_packet_size) :
    (ticks pkt (k + 1) (txStart s)).phase =
      ((ticks pkt k (txStart s)).phase + toneUsed pkt (txStart s) k) % 2 ^ 32 := by
  rw [toneUsed, ticks_succ]
  exact tick_phase pkt _ (pos_ne_size pkt hsz s k hk)

/-- C11: when `modem_packet[0] = 0xFF` is sent over its 8 baud intervals
(`modem_packet_size = 8`), `phase_delta` is the mark tone before and after
every one of the `8 * SAMPLES_PER_BAUD` sample invocations, so no toggle
occurs, and the phase stored after `k` of them is `k * PHASE_DELTA_1200`. -/
theorem C11_ones_byte (pkt : Packet) (hb : pkt.modem_packet 0 = 0xFF)
    (hs : pkt.modem_packet_size = 8) (s : State) (k : Nat)
    (hk : k < 8 * SAMPLES_PER_BAUD) :
    (ticks pkt k (txStart s)).phase_delta = PHASE_DELTA_1200 ∧
    toneUsed pkt (txStart s) k = PHASE_DELTA_1200 ∧
    (samples (tickCalls pkt (txStart s) k)).length = 1 ∧
    (ticks pkt k (txStart s)).phase = k * PHASE_DELTA_1200 ∧
    (ticks pkt (k + 1) (txStart s)).phase = (k + 1) * PHASE_DELTA_1200 := by
  have hsz : pkt.modem_packet_size < 2 ^ 16 := by rw [hs]; decide
  rw [samples_per_baud_eq] at hk
  have hbit : ∀ m, m < 8 → packetBit pkt m = 1 := by
    intro m hm
    have h8 : m / 8 = 0 := by omega
    have hm8 : m % 8 = m := by omega
    rw [packetBit, h8, hb, hm8]
    interval_cases m <;> decide
  have htone : ∀ n, n < 39 * 8 → toneUsed pkt (txStart s) n = PHASE_DELTA_1200 := by
    intro n hn
    rw [toneUsed_tick pkt hsz s n (by rw [hs]; exact hn)]
    exact toneAfter_ones pkt _ (fun m hm => hbit m (by omega))
  have hphase : ∀ n, n ≤ 39 * 8 → (ticks pkt n (txStart s)).phase = n * PHASE_DELTA_1200 := by
    intro n
    induction n with
    | zero => intro _; rw [Nat.zero_mul]; rfl
    | succ n ih =>
      intro hn
      rw [phase_tick pkt hsz s n (by rw [hs]; omega), ih (by omega), htone n (by omega),
        phase_delta_1200_eq]
      omega
  refine ⟨?_, htone k (by omega), ?_, hphase k (by omega), hphase (k + 1) (by omega)⟩
  · cases k with
    | zero => rfl
    | succ n => exact htone n (by omega)
  · rw [tickCalls, samples_tick pkt _ (pos_ne_size pkt hsz s k (by rw [hs]; omega))]
    rfl

/-- C11 at invocation 100 of the byte `0xFF`: the mark tone, and a stored
phase of `101 * PHASE_DELTA_1200` after it. -/
theorem C11_ones_byte_witness :
    (fill 0xFF 8).modem_packet 0 = 0xFF ∧ (fill 0xFF 8).modem_packet_size = 8 ∧
    100 < 8 * SAMPLES_PER_BAUD ∧
    toneUsed (fill 0xFF 8) (txStart powerOn) 100 = PHASE_DELTA_1200 ∧
    (ticks (fill 0xFF 8) (100 + 1) (txStart powerOn)).phase = (100 + 1) * PHASE_DELTA_1200 :=
  ⟨rfl, rfl, by decide,
   (C11_ones_byte (fill 0xFF 8) rfl rfl powerOn 100 (by decide)).2.1,
   (C11_ones_byte (fill 0xFF 8) rfl rfl powerOn 100 (by decide)).2.2.2.2⟩

/-! ## The calls of `modem_flush_frame` -/

theorem tick_calls_fromIrq (pkt : Packet) (s : State) (c : Call)
    (h : c ∈ (SCT_IRQHandler pkt s).2) : c.fromIrq = true := by
  by_cases hp : s.packet_pos = pkt.modem_packet_size
  · rw [tick_halt pkt s hp] at h
    simp at h
    rcases h with rfl | rfl <;> rfl
  · rw [tick_calls pkt s hp, loadBit_calls] at h
    split at h <;> simp at h
    · rcases h with rfl | rfl | rfl <;> rfl
    · rcases h with rfl | rfl <;> rfl

theorem waitTrace_calls (pkt : Packet) (n : Nat) (s : State) (c : Call)
    (h : c ∈ waitTrace pkt n s) : c = Call.WFI ∨ c.fromIrq = true := by
  induction n generalizing s with
  | zero => simp [waitTrace] at h
  | succ n ih =>
    rw [waitTrace] at h
    simp only [List.cons_append, List.mem_cons, List.mem_append] at h
    rcases h with h | h | h
    · exact Or.inl h
    · exact Or.inr (tick_calls_fromIrq pkt s c h)
    · exact ih _ h

/-- With enough fuel `modem_flush_frame` returns, and these are its final
state and its calls. -/
theorem flush_done (pkt : Packet) (hsz : pkt.modem_packet_size < 2 ^ 16) (s : State)
    (gps1 gps2 : Bool) (extra : Nat) :
    modem_flush_frame pkt gps1 gps2 (39 * pkt.modem_packet_size + 1 + extra) s =
      some ({ ticks pkt (39 * pkt.modem_packet_size) (txStart s) with modem_busy := false },
        Call.gpsIsOn gps1 :: (if gps1 then [Call.GPS_hibernate_uart] else []) ++
        [Call.Si446x_Init, Call.gps_get_region_frequency, Call.radioTune, Call.SCT_setup,
         Call.NVIC_EnableIRQ, Call.Chip_SCT_ClearControl_HALT_L] ++
        waitTrace pkt (39 * pkt.modem_packet_size + 1) (txStart s) ++
        [Call.radioShutdown, Call.gpsIsOn gps2] ++
        (if gps2 then [Call.GPS_wake_uart] else [])) := by
  have h := waitNotBusy_done pkt hsz s extra
  unfold txStart at h
  unfold modem_flush_frame
  simp only [h, Option.map_some']
  cases gps1 <;> cases gps2 <;> simp [Modem_Init, txStart]

/-! ## Serial hand-back -/

/-- C12, as stated, fails: when the first `gpsIsOn()` answers true and the
second answers false, `modem_flush_frame` hibernates the UART at the beginning
and does not wake it at the end. -/
theorem C12_counterexample :
    (modem_flush_frame (fill 0x00 0) true false 1 powerOn).map Prod.snd =
      some [Call.gpsIsOn true, Call.GPS_hibernate_uart, Call.Si446x_Init,
        Call.gps_get_region_frequency, Call.radioTune, Call.SCT_setup, Call.NVIC_EnableIRQ,
        Call.Chip_SCT_ClearControl_HALT_L, Call.WFI, Call.Chip_SCT_SetControl_HALT_L,
        Call.Chip_SCT_ClearEventFlag, Call.radioShutdown, Call.gpsIsOn false] ∧
    Call.GPS_hibernate_uart ∈ [Call.gpsIsOn true, Call.GPS_hibernate_uart, Call.Si446x_Init,
        Call.gps_get_region_frequency, Call.radioTune, Call.SCT_setup, Call.NVIC_EnableIRQ,
        Call.Chip_SCT_ClearControl_HALT_L, Call.WFI, Call.Chip_SCT_SetControl_HALT_L,
        Call.Chip_SCT_ClearEventFlag, Call.radioShutdown, Call.gpsIsOn false] ∧
    Call.GPS_wake_uart ∉ [Call.gpsIsOn true, Call.GPS_hibernate_uart, Call.Si446x_Init,
        Call.gps_get_region_frequency, Call.radioTune, Call.SCT_setup, Call.NVIC_EnableIRQ,
        Call.Chip_SCT_ClearControl_HALT_L, Call.WFI, Call.Chip_SCT_SetControl_HALT_L,
        Call.Chip_SCT_ClearEventFlag, Call.radioShutdown, Call.gpsIsOn false] := by
  decide

/-- C12, amended: `modem_flush_frame` asks `gpsIsOn()` twice. Its calls are
the first query, then `GPS_hibernate_uart` exactly when that query answered
true, then calls none of which hibernates or wakes the UART, then the second
query, then `GPS_wake_uart` exactly when the second query answered true. So
the UART is woken at the end if and only if it was hibernated at the
beginning whenever the two queries give the same answer. -/
theorem C12_hand_back (pkt : Packet) (hsz : pkt.modem_packet_size < 2 ^ 16) (s : State)
    (gps1 gps2 : Bool) (extra : Nat) :
    ∃ mid,
      (modem_flush_frame pkt gps1 gps2
          (SAMPLES_PER_BAUD * pkt.modem_packet_size + 1 + extra) s).map Prod.snd =
        some (Call.gpsIsOn gps1 :: (if gps1 then [Call.GPS_hibernate_uart] else []) ++
          mid ++ Call.gpsIsOn gps2 :: (if gps2 then [Call.GPS_wake_uart] else [])) ∧
      Call.GPS_hibernate_uart ∉ mid ∧ Call.GPS_wake_uart ∉ mid ∧
      (gps1 = gps2 →
        (Call.GPS_wake_uart ∈ (if gps2 then [Call.GPS_wake_uart] else []) ↔
          Call.GPS_hibernate_uart ∈ (if gps1 then [Call.GPS_hibernate_uart] else []))) := by
  have hw : ∀ c, c ∈ waitTrace pkt (39 * pkt.modem_packet_size + 1) (txStart s) →
      c = Call.WFI ∨ c.fromIrq = true := fun c => waitTrace_calls pkt _ _ c
  refine ⟨[Call.Si446x_Init, Call.gps_get_region_frequency, Call.radioTune,
    Call.SCT_setup, Call.NVIC_EnableIRQ, Call.Chip_SCT_ClearControl_HALT_L] ++
    waitTrace pkt (39 * pkt.modem_packet_size + 1) (txStart s) ++ [Call.radioShutdown],
    ?_, ?_, ?_, ?_⟩
  · rw [samples_per_baud_eq, flush_done pkt hsz s gps1 gps2 extra]
    simp
  · intro hm
    simp only [List.mem_append, List.mem_cons, List.mem_singleton] at hm
    rcases hm with (hm | hm) | hm
    · simp at hm
    · rcases hw _ hm with h | h
      · cases h
      · cases h
    · simp at hm
  · intro hm
    simp only [List.mem_append, List.mem_cons, List.mem_singleton] at hm
    rcases hm with (hm | hm) | hm
    · simp at hm
    · rcases hw _ hm with h | h
      · cases h
      · cases h
    · simp at hm
  · rintro rfl
    cases gps1 <;> simp

/-- C12, amended, on an empty packet with the serial consumer active at both
queries. -/
theorem C12_hand_back_witness :
    (fill 0x00 0).modem_packet_size < 2 ^ 16 ∧
    ∃ mid,
      (modem_flush_frame (fill 0x00 0) true true
          (SAMPLES_PER_BAUD * (fill 0x00 0).modem_packet_size + 1 + 0) powerOn).map Prod.snd =
        some (Call.gpsIsOn true :: (if true then [Call.GPS_hibernate_uart] else []) ++
          mid ++ Call.gpsIsOn true :: (if true then [Call.GPS_wake_uart] else [])) ∧
      Call.GPS_hibernate_uart ∉ mid ∧ Call.GPS_wake_uart ∉ mid ∧
      (true = true →
        (Call.GPS_wake_uart ∈ (if true then [Call.GPS_wake_uart] else []) ↔
          Call.GPS_hibernate_uart ∈ (if true then [Call.GPS_hibernate_uart] else []))) :=
  ⟨by decide, C12_hand_back (fill 0x00 0) (by decide) powerOn true true 0⟩

/-! ## Order of the steps of `modem_flush_frame` -/

/-- C13, as stated, fails: in the calls of `modem_flush_frame` the radio is
powered (`Si446x_Init`) and tuned (`radioTune`) before the sample timer is
configured and started (`Chip_SCT_ClearControl_HALT_L`), not after. -/
theorem C13_counterexample :
    (modem_flush_frame (fill 0x00 0) false false 1 powerOn).map Prod.snd =
      some [Call.gpsIsOn false, Call.Si446x_Init, Call.gps_get_region_frequency,
        Call.radioTune, Call.SCT_setup, Call.NVIC_EnableIRQ,
        Call.Chip_SCT_ClearControl_HALT_L, Call.WFI, Call.Chip_SCT_SetControl_HALT_L,
        Call.Chip_SCT_ClearEventFlag, Call.radioShutdown, Call.gpsIsOn false] ∧
    ¬ (List.indexOf Call.Chip_SCT_ClearControl_HALT_L
        [Call.gpsIsOn false, Call.Si446x_Init, Call.gps_get_region_frequency,
         Call.radioTune, Call.SCT_setup, Call.NVIC_EnableIRQ,
         Call.Chip_SCT_ClearControl_HALT_L, Call.WFI, Call.Chip_SCT_SetControl_HALT_L,
         Call.Chip_SCT_ClearEventFlag, Call.radioShutdown, Call.gpsIsOn false] <
       List.indexOf Call.Si446x_Init
        [Call.gpsIsOn false, Call.Si446x_Init, Call.gps_get_region_frequency,
         Call.radioTune, Call.SCT_setup, Call.NVIC_EnableIRQ,
         Call.Chip_SCT_ClearControl_HALT_L, Call.WFI, Call.Chip_SCT_SetControl_HALT_L,
         Call.Chip_SCT_ClearEventFlag, Call.radioShutdown, Call.gpsIsOn false]) ∧
    List.indexOf Call.radioTune
        [Call.gpsIsOn false, Call.Si446x_Init, Call.gps_get_region_frequency,
         Call.radioTune, Call.SCT_setup, Call.NVIC_EnableIRQ,
         Call.Chip_SCT_ClearControl_HALT_L, Call.WFI, Call.Chip_SCT_SetControl_HALT_L,
         Call.Chip_SCT_ClearEventFlag, Call.radioShutdown, Call.gpsIsOn false] <
      List.indexOf Call.SCT_setup
        [Call.gpsIsOn false, Call.Si446x_Init, Call.gps_get_region_frequency,
         Call.radioTune, Call.SCT_setup, Call.NVIC_EnableIRQ,
         Call.Chip_SCT_ClearControl_HALT_L, Call.WFI, Call.Chip_SCT_SetControl_HALT_L,
         Call.Chip_SCT_ClearEventFlag, Call.radioShutdown, Call.gpsIsOn false] := by
  decide

/-- C13, amended: every invocation of `modem_flush_frame` that returns has
made its effects in this order: the reset of the modulation state; the
`gpsIsOn()` query and, when it answers true, `GPS_hibernate_uart`; the
power-up and tuning of the radio; the configuration of the sample timer, the
setting of `modem_busy` and the start of the counter; the waits, each ended
by one invocation of the interrupt routine, during which `modem_busy` stays
set until the last invocation clears it; `radioShutdown`; the second
`gpsIsOn()` query and, when it answers true, `GPS_wake_uart`. -/
theorem C13_step_order (pkt : Packet) (hsz : pkt.modem_packet_size < 2 ^ 16) (s : State)
    (gps1 gps2 : Bool) (extra : Nat) :
    modem_flush_frame pkt gps1 gps2
        (SAMPLES_PER_BAUD * pkt.modem_packet_size + 1 + extra) s =
      some ({ ticks pkt (SAMPLES_PER_BAUD * pkt.modem_packet_size)
                (Modem_Init (resetModulation s)).1 with modem_busy := false },
        Call.gpsIsOn gps1 :: (if gps1 then [Call.GPS_hibernate_uart] else []) ++
        [Call.Si446x_Init, Call.gps_get_region_frequency, Call.radioTune, Call.SCT_setup,
         Call.NVIC_EnableIRQ, Call.Chip_SCT_ClearControl_HALT_L] ++
        waitTrace pkt (SAMPLES_PER_BAUD * pkt.modem_packet_size + 1)
          (Modem_Init (resetModulation s)).1 ++
        [Call.radioShutdown, Call.gpsIsOn gps2] ++
        (if gps2 then [Call.GPS_wake_uart] else [])) ∧
    (Modem_Init (resetModulation s)).1 = { resetModulation s with modem_busy := true } ∧
    (Modem_Init (resetModulation s)).2 =
      [Call.Si446x_Init, Call.gps_get_region_frequency, Call.radioTune, Call.SCT_setup,
       Call.NVIC_EnableIRQ, Call.Chip_SCT_ClearControl_HALT_L] ∧
    (∀ k, k ≤ SAMPLES_PER_BAUD * pkt.modem_packet_size →
      (ticks pkt k (Modem_Init (resetModulation s)).1).modem_busy = true) ∧
    (ticks pkt (SAMPLES_PER_BAUD * pkt.modem_packet_size + 1)
      (Modem_Init (resetModulation s)).1).modem_busy = false ∧
    (∀ c, c ∈ waitTrace pkt (SAMPLES_PER_BAUD * pkt.modem_packet_size + 1)
        (Modem_Init (resetModulation s)).1 → c = Call.WFI ∨ c.fromIrq = true) := by
  rw [samples_per_baud_eq]
  refine ⟨flush_done pkt hsz s gps1 gps2 extra, rfl, rfl, ?_, ?_,
    fun c => waitTrace_calls pkt _ _ c⟩
  · intro k hk
    exact (runInv_ticks pkt hsz s k hk).busy
  · have hp : (ticks pkt (39 * pkt.modem_packet_size)
        (Modem_Init (resetModulation s)).1).packet_pos = pkt.modem_packet_size :=
      pos_eq_size pkt hsz s
    rw [ticks_succ, tick_halt _ _ hp]

/-- C13, amended, on a packet of one bit with the serial consumer inactive:
the run returns, and `modem_busy` is still set when the last sample has been
driven. -/
theorem C13_step_order_witness :
    (fill 0xFF 1).modem_packet_size < 2 ^ 16 ∧
    (Modem_Init (resetModulation powerOn)).2 =
      [Call.Si446x_Init, Call.gps_get_region_frequency, Call.radioTune, Call.SCT_setup,
       Call.NVIC_EnableIRQ, Call.Chip_SCT_ClearControl_HALT_L] ∧
    (ticks (fill 0xFF 1) (SAMPLES_PER_BAUD * (fill 0xFF 1).modem_packet_size + 1)
      (Modem_Init (resetModulation powerOn)).1).modem_busy = false :=
  ⟨by decide,
   (C13_step_order (fill 0xFF 1) (by decide) powerOn false false 0).2.2.1,
   (C13_step_order (fill 0xFF 1) (by decide) powerOn false false 0).2.2.2.2.1⟩

/-! ## Decision before advance -/

theorem loadBit_phase (pkt : Packet) (s : State) : (loadBit pkt s).1.phase = s.phase := by
  simp only [loadBit]
  split <;> (try split) <;> rfl

theorem tick_delta_loadBit (pkt : Packet) (s : State)
    (h : s.packet_pos ≠ pkt.modem_packet_size) :
    (SCT_IRQHandler pkt s).1.phase_delta = (loadBit pkt s).1.phase_delta := by
  simp only [SCT_IRQHandler, if_neg h, countSample]
  split <;> rfl

theorem loadBit_delta (pkt : Packet) (s : State) (h0 : s.current_sample_in_baud = 0) :
    (loadBit pkt s).1.phase_delta =
      if (nextByte pkt s).1 &&& 1 = 0 then
        s.phase_delta ^^^ (PHASE_DELTA_1200 ^^^ PHASE_DELTA_2200)
      else s.phase_delta := by
  simp only [loadBit, if_pos h0]
  split <;> simp_all

/-- The phase of a transmission grows by at most 12 per invocation. -/
theorem phase_le (pkt : Packet) (s : State) (k : Nat) :
    (ticks pkt k (txStart s)).phase ≤ 12 * k := by
  induction k with
  | zero => exact Nat.le_refl 0
  | succ k ih =>
    by_cases hp : (ticks pkt k (txStart s)).packet_pos = pkt.modem_packet_size
    · rw [ticks_succ, tick_halt _ _ hp]
      show (ticks pkt k (txStart s)).phase ≤ 12 * (k + 1)
      omega
    · have h2 := two_tone_ticks pkt s (k + 1)
      have hph := tick_phase pkt _ hp
      rw [← ticks_succ] at hph
      rw [phase_delta_1200_eq, phase_delta_2200_eq] at h2
      have hle := Nat.mod_le
        ((ticks pkt k (txStart s)).phase + (ticks pkt (k + 1) (txStart s)).phase_delta)
        (2 ^ 32)
      omega

/-- C15: on an invocation that starts a baud interval (not halting, with
`current_sample_in_baud = 0`) the tone decision of lines 101-112 leaves
`phase` alone and only chooses `phase_delta`, toggled when the bit is 0; the
stride stored by the invocation is the one decided, and the phase it stores
is the phase before plus that newly selected stride, modulo `2^32`. In a
transmission started by `modem_flush_frame` the sum never wraps: the phase
after the first invocation of a baud interval is exactly the phase before
plus the newly selected stride. -/
theorem C15_decision_before_advance (pkt : Packet) (hsz : pkt.modem_packet_size < 2 ^ 16)
    (s t : State) (k : Nat) (ht : t.packet_pos ≠ pkt.modem_packet_size)
    (ht0 : t.current_sample_in_baud = 0)
    (hk : k < SAMPLES_PER_BAUD * pkt.modem_packet_size)
    (hk0 : (ticks pkt k (txStart s)).current_sample_in_baud = 0) :
    (loadBit pkt t).1.phase = t.phase ∧
    (loadBit pkt t).1.phase_delta =
      (if (nextByte pkt t).1 &&& 1 = 0 then
        t.phase_delta ^^^ (PHASE_DELTA_1200 ^^^ PHASE_DELTA_2200)
      else t.phase_delta) ∧
    (SCT_IRQHandler pkt t).1.phase_delta = (loadBit pkt t).1.phase_delta ∧
    (SCT_IRQHandler pkt t).1.phase = (t.phase + (loadBit pkt t).1.phase_delta) % 2 ^ 32 ∧
    (ticks pkt (k + 1) (txStart s)).phase_delta =
      (if packetBit pkt (k / SAMPLES_PER_BAUD) = 0 then
        (ticks pkt k (txStart s)).phase_delta ^^^ (PHASE_DELTA_1200 ^^^ PHASE_DELTA_2200)
      else (ticks pkt k (txStart s)).phase_delta) ∧
    (ticks pkt (k + 1) (txStart s)).phase =
      (ticks pkt k (txStart s)).phase + (ticks pkt (k + 1) (txStart s)).phase_delta := by
  rw [samples_per_baud_eq] at hk ⊢
  have hd := tick_delta_loadBit pkt t ht
  refine ⟨loadBit_phase pkt t, loadBit_delta pkt t ht0, hd, ?_, ?_, ?_⟩
  · rw [← hd]; exact tick_phase pkt t ht
  · have inv := runInv_ticks pkt hsz s k (by omega)
    have hm : k % 39 = 0 := by rw [← inv.cnt]; exact hk0
    have hu := toneUsed_tick pkt hsz s k hk
    rw [toneUsed] at hu
    rw [hu, (inv.edge hm).1, toneAfter]
  · have hph := phase_tick pkt hsz s k hk
    have hle := phase_le pkt s k
    have h2 := two_tone_ticks pkt s (k + 1)
    rw [phase_delta_1200_eq, phase_delta_2200_eq] at h2
    rw [toneUsed] at hph
    rw [hph]
    apply Nat.mod_eq_of_lt
    omega

/-- C15 on the first invocation of a transmission of the byte `0x00`: the tone
is toggled to the space tone and the phase goes from 0 to 12. -/
theorem C15_decision_before_advance_witness :
    (fill 0x00 8).modem_packet_size < 2 ^ 16 ∧
    (txStart powerOn).packet_pos ≠ (fill 0x00 8).modem_packet_size ∧
    (txStart powerOn).current_sample_in_baud = 0 ∧
    0 < SAMPLES_PER_BAUD * (fill 0x00 8).modem_packet_size ∧
    (ticks (fill 0x00 8) 0 (txStart powerOn)).current_sample_in_baud = 0 ∧
    (ticks (fill 0x00 8) (0 + 1) (txStart powerOn)).phase =
      (ticks (fill 0x00 8) 0 (txStart powerOn)).phase +
        (ticks (fill 0x00 8) (0 + 1) (txStart powerOn)).phase_delta :=
  ⟨by decide, by decide, rfl, by decide, rfl,
   (C15_decision_before_advance (fill 0x00 8) (by decide) powerOn (txStart powerOn) 0
     (by decide) rfl (by decide) rfl).2.2.2.2.2⟩

/-! ## Bit extraction and buffer reads -/

/-- The buffer reads of an invocation that does not halt: one, of index
`packet_pos >> 3`, when a fresh byte is loaded, and none otherwise. -/
theorem reads_tick (pkt : Packet) (s : State) (h : s.packet_pos ≠ pkt.modem_packet_size) :
    reads (SCT_IRQHandler pkt s).2 =
      if s.current_sample_in_baud = 0 ∧ s.packet_pos % 8 = 0 then [s.packet_pos / 8]
      else [] := by
  rw [tick_calls pkt s h, reads_append, loadBit_calls]
  split <;> rfl

theorem reads_halt (pkt : Packet) (s : State) (h : s.packet_pos = pkt.modem_packet_size) :
    reads (SCT_IRQHandler pkt s).2 = [] := by
  rw [tick_halt pkt s h]; rfl

/-- The byte register during baud interval `i`, from its first invocation on. -/
theorem byte_in_baud (pkt : Packet) (hsz : pkt.modem_packet_size < 2 ^ 16) (s : State)
    (i j : Nat) (hi : i < pkt.modem_packet_size) (h1 : 1 ≤ j) (hj : j ≤ 39) :
    (ticks pkt (39 * i + j) (txStart s)).current_byte = byteAt pkt i := by
  have inv := runInv_ticks pkt hsz s (39 * i + j) (by omega)
  by_cases hl : j = 39
  · have e1 : (39 * i + j) % 39 = 0 := by omega
    have e2 : (39 * i + j) / 39 = i + 1 := by omega
    have := (inv.edge e1).2 (by omega)
    rwa [e2, Nat.add_sub_cancel] at this
  · have e1 : (39 * i + j) % 39 ≠ 0 := by omega
    have e2 : (39 * i + j) / 39 = i := by omega
    have := (inv.mid e1).2
    rwa [e2] at this

/-- C16: in a transmission started by `modem_flush_frame`, from the first
invocation of baud interval `i` to its last the byte register is
`modem_packet[i div 8] >> (i mod 8)`, so that its least-significant bit is
bit `i mod 8` of byte `i div 8`; that first invocation reads the buffer at
index `i div 8` and loads the byte when `i mod 8 = 0`, and otherwise reads
nothing and halves the register. -/
theorem C16_lsb_first (pkt : Packet) (hsz : pkt.modem_packet_size < 2 ^ 16) (s : State)
    (i j : Nat) (hi : i < pkt.modem_packet_size) (h1 : 1 ≤ j) (hj : j ≤ SAMPLES_PER_BAUD) :
    (ticks pkt (SAMPLES_PER_BAUD * i + j) (txStart s)).current_byte =
      (pkt.modem_packet (i / 8) % 2 ^ 8) >>> (i % 8) ∧
    (ticks pkt (SAMPLES_PER_BAUD * i + j) (txStart s)).current_byte &&& 1 =
      packetBit pkt i ∧
    (i % 8 = 0 →
      reads (tickCalls pkt (txStart s) (SAMPLES_PER_BAUD * i)) = [i / 8] ∧
      (ticks pkt (SAMPLES_PER_BAUD * i + 1) (txStart s)).current_byte =
        pkt.modem_packet (i / 8) % 2 ^ 8) ∧
    (i % 8 ≠ 0 →
      reads (tickCalls pkt (txStart s) (SAMPLES_PER_BAUD * i)) = [] ∧
      (ticks pkt (SAMPLES_PER_BAUD * i + 1) (txStart s)).current_byte =
        (ticks pkt (SAMPLES_PER_BAUD * i) (txStart s)).current_byte / 2) := by
  rw [samples_per_baud_eq] at hj ⊢
  have hb := byte_in_baud pkt hsz s i j hi h1 hj
  have hb1 := byte_in_baud pkt hsz s i 1 hi (le_refl 1) (by decide)
  have inv := runInv_ticks pkt hsz s (39 * i) (by omega)
  have e1 : 39 * i % 39 = 0 := by omega
  have e2 : 39 * i / 39 = i := by omega
  have hpos : (ticks pkt (39 * i) (txStart s)).packet_pos = i := by rw [inv.pos, e2]
  have hcnt : (ticks pkt (39 * i) (txStart s)).current_sample_in_baud = 0 := by
    rw [inv.cnt, e1]
  have hne : (ticks pkt (39 * i) (txStart s)).packet_pos ≠ pkt.modem_packet_size := by
    rw [hpos]; omega
  refine ⟨?_, ?_, ?_, ?_⟩
  · rw [hb, Nat.shiftRight_eq_div_pow]; rfl
  · rw [hb, and_one]; rfl
  · intro h8
    refine ⟨?_, ?_⟩
    · rw [tickCalls, reads_tick pkt _ hne, hpos, hcnt, if_pos ⟨rfl, h8⟩]
    · rw [hb1, byteAt_zero_mod pkt i h8]
  · intro h8
    refine ⟨?_, ?_⟩
    · rw [tickCalls, reads_tick pkt _ hne, hpos, hcnt, if_neg (fun c => h8 c.2)]
    · rw [ticks_succ, tick_byte pkt _ hne, if_pos hcnt, nextByte, and_seven, hpos,
        if_neg h8]

/-- C16 on the byte `0x02` at bit 1: the first invocation of baud interval 1
halves the register, which then holds 1. -/
theorem C16_lsb_first_witness :
    (fill 0x02 8).modem_packet_size < 2 ^ 16 ∧ 1 < (fill 0x02 8).modem_packet_size ∧
    1 ≤ 1 ∧ 1 ≤ SAMPLES_PER_BAUD ∧ 1 % 8 ≠ 0 ∧
    (ticks (fill 0x02 8) (SAMPLES_PER_BAUD * 1 + 1) (txStart powerOn)).current_byte =
      ((fill 0x02 8).modem_packet (1 / 8) % 2 ^ 8) >>> (1 % 8) ∧
    reads (tickCalls (fill 0x02 8) (txStart powerOn) (SAMPLES_PER_BAUD * 1)) = [] :=
  ⟨by decide, by decide, by decide, by decide, by decide,
   (C16_lsb_first (fill 0x02 8) (by decide) powerOn 1 1 (by decide) (by decide)
     (by decide)).1,
   ((C16_lsb_first (fill 0x02 8) (by decide) powerOn 1 1 (by decide) (by decide)
     (by decide)).2.2.2 (by decide)).1⟩

/-! ## One decision per baud interval -/

/-- C17: an invocation that does not halt and finds
`current_sample_in_baud != 0` leaves `phase_delta` and `current_byte` as they
were, does not read the packet buffer and drives one sample; hence every
sample `j` of a baud interval `i` of a transmission is generated with the
stride of the interval's first invocation. -/
theorem C17_once_per_baud (pkt : Packet) (hsz : pkt.modem_packet_size < 2 ^ 16)
    (s t : State) (i j : Nat) (ht : t.packet_pos ≠ pkt.modem_packet_size)
    (hc : t.current_sample_in_baud ≠ 0) (hi : i < pkt.modem_packet_size)
    (hj : j < SAMPLES_PER_BAUD) :
    (SCT_IRQHandler pkt t).1.phase_delta = t.phase_delta ∧
    (SCT_IRQHandler pkt t).1.current_byte = t.current_byte ∧
    reads (SCT_IRQHandler pkt t).2 = [] ∧
    (samples (SCT_IRQHandler pkt t).2).length = 1 ∧
    toneUsed pkt (txStart s) (SAMPLES_PER_BAUD * i + j) =
      toneUsed pkt (txStart s) (SAMPLES_PER_BAUD * i) := by
  rw [samples_per_baud_eq] at hj ⊢
  refine ⟨?_, ?_, ?_, ?_, ?_⟩
  · rw [tick_delta pkt t ht, if_neg (fun c => hc c.1)]
  · rw [tick_byte pkt t ht, if_neg hc]
  · rw [reads_tick pkt t ht, if_neg (fun c => hc c.1)]
  · rw [samples_tick pkt t ht]; rfl
  · have h0 := toneUsed_eq pkt hsz s i 0 hi (by decide)
    rw [Nat.add_zero] at h0
    rw [toneUsed_eq pkt hsz s i j hi hj, h0]

/-- C17 on the second invocation of a transmission of the byte `0x00`. -/
theorem C17_once_per_baud_witness :
    (fill 0x00 8).modem_packet_size < 2 ^ 16 ∧
    (ticks (fill 0x00 8) 1 (txStart powerOn)).packet_pos ≠ (fill 0x00 8).modem_packet_size ∧
    (ticks (fill 0x00 8) 1 (txStart powerOn)).current_sample_in_baud ≠ 0 ∧
    3 < (fill 0x00 8).modem_packet_size ∧ 38 < SAMPLES_PER_BAUD ∧
    (SCT_IRQHandler (fill 0x00 8) (ticks (fill 0x00 8) 1 (txStart powerOn))).1.phase_delta =
      (ticks (fill 0x00 8) 1 (txStart powerOn)).phase_delta ∧
    toneUsed (fill 0x00 8) (txStart powerOn) (SAMPLES_PER_BAUD * 3 + 38) =
      toneUsed (fill 0x00 8) (txStart powerOn) (SAMPLES_PER_BAUD * 3) :=
  ⟨by decide, by decide, by decide, by decide, by decide,
   (C17_once_per_baud (fill 0x00 8) (by decide) powerOn
     (ticks (fill 0x00 8) 1 (txStart powerOn)) 3 38 (by decide) (by decide) (by decide)
     (by decide)).1,
   (C17_once_per_baud (fill 0x00 8) (by decide) powerOn
     (ticks (fill 0x00 8) 1 (txStart powerOn)) 3 38 (by decide) (by decide) (by decide)
     (by decide)).2.2.2.2⟩

/-! ## Bounds of the buffer reads -/

/-- Every index read during a transmission is the index of the byte that
holds a bit below `modem_packet_size`. -/
theorem read_index_bit (pkt : Packet) (s : State) (k idx : Nat)
    (h : idx ∈ reads (tickCalls pkt (txStart s) k)) :
    idx = (ticks pkt k (txStart s)).packet_pos / 8 ∧ 8 * idx < pkt.modem_packet_size := by
  have hc := (counters_ticks pkt s k).2
  by_cases hp : (ticks pkt k (txStart s)).packet_pos = pkt.modem_packet_size
  · rw [tickCalls, reads_halt pkt _ hp] at h
    simp at h
  · rw [tickCalls, reads_tick pkt _ hp] at h
    split at h
    · simp at h
      omega
    · simp at h

/-- C19: `MODEM_MAX_PACKET` being the capacity of `modem_packet`, whenever
`modem_packet_size` is at most the capacity, every index
`packet_pos >> 3` at which an invocation of the interrupt routine reads
`modem_packet` during a transmission started by `modem_flush_frame` is below
the capacity, below `modem_packet_size`, and below the number
`(modem_packet_size + 7) / 8` of bytes that hold the bits to send. -/
theorem C19_reads_in_bounds (MODEM_MAX_PACKET : Nat) (pkt : Packet) (s : State)
    (k idx : Nat) (hcap : pkt.modem_packet_size ≤ MODEM_MAX_PACKET)
    (hr : idx ∈ reads (tickCalls pkt (txStart s) k)) :
    idx = (ticks pkt k (txStart s)).packet_pos >>> 3 ∧
    idx < MODEM_MAX_PACKET ∧
    idx < pkt.modem_packet_size ∧
    idx < (pkt.modem_packet_size + 7) / 8 := by
  have h := read_index_bit pkt s k idx hr
  rw [shr_three]
  exact ⟨h.1, by omega, by omega, by omega⟩

/-- C19 on the first read of a transmission of one byte from a buffer of 64
bytes. -/
theorem C19_reads_in_bounds_witness :
    (fill 0x00 8).modem_packet_size ≤ 64 ∧
    0 ∈ reads (tickCalls (fill 0x00 8) (txStart powerOn) 0) ∧
    0 < 64 ∧ 0 < (fill 0x00 8).modem_packet_size :=
  ⟨by decide, by decide,
   (C19_reads_in_bounds 64 (fill 0x00 8) powerOn 0 0 (by decide) (by decide)).2.1,
   (C19_reads_in_bounds 64 (fill 0x00 8) powerOn 0 0 (by decide) (by decide)).2.2.1⟩

/-! ## The 32-bit accumulator against the accumulator modulo `PERIOD` -/

theorem loadBit_set_phase (pkt : Packet) (s : State) (p : Nat) :
    loadBit pkt { s with phase := p } =
      ({ (loadBit pkt s).1 with phase := p }, (loadBit pkt s).2) := by
  simp only [loadBit, nextByte]
  split <;> (try split) <;> (try split) <;> rfl

theorem countSample_set_phase (s : State) (p : Nat) :
    countSample { s with phase := p } = { countSample s with phase := p } := by
  simp only [countSample]
  split <;> rfl

theorem countSample_phase (s : State) : (countSample s).phase = s.phase := by
  simp only [countSample]
  split <;> rfl

/-- One invocation: `specHandler` on the reduced state makes the calls of
`SCT_IRQHandler` and reaches the reduced state. -/
theorem specHandler_sim (pkt : Packet) (s : State) :
    specHandler pkt { s with phase := s.phase % PERIOD } =
      ({ (SCT_IRQHandler pkt s).1 with phase := (SCT_IRQHandler pkt s).1.phase % PERIOD },
        (SCT_IRQHandler pkt s).2) := by
  by_cases hp : s.packet_pos = pkt.modem_packet_size
  · rw [tick_halt pkt s hp]
    simp [specHandler, hp]
  · have hp' : ({ s with phase := s.phase % PERIOD } : State).packet_pos ≠
        pkt.modem_packet_size := hp
    have e1 : ((loadBit pkt s).1.phase + (loadBit pkt s).1.phase_delta) % 2 ^ 32 % 256 =
        (s.phase % 256 + (loadBit pkt s).1.phase_delta) % 256 := by
      rw [loadBit_phase]; omega
    have e2 : (((loadBit pkt s).1.phase + (loadBit pkt s).1.phase_delta) % 2 ^ 32) / 128 % 2 =
        (s.phase % 256 + (loadBit pkt s).1.phase_delta) % 256 / 128 % 2 := by
      rw [loadBit_phase]; omega
    simp only [specHandler, SCT_IRQHandler, if_neg hp, if_neg hp', loadBit_set_phase,
      specAdvance, specLevel, period_eq, countSample_set_phase, countSample_phase,
      shr_seven, and_one]
    simp only [e1, e2]
    norm_num

theorem specTicks_sim (pkt : Packet) (k : Nat) (s : State) :
    specTicks pkt k { s with phase := s.phase % PERIOD } =
      { ticks pkt k s with phase := (ticks pkt k s).phase % PERIOD } := by
  induction k generalizing s with
  | zero => rfl
  | succ k ih => rw [specTicks, specHandler_sim, ticks]; exact ih _

theorem txStart_reduced (s : State) :
    ({ txStart s with phase := (txStart s).phase % PERIOD } : State) = txStart s := by
  simp [txStart, Modem_Init, resetModulation]

/-- C18: run from the start of a transmission, the interrupt routine with its
32-bit accumulator and the routine with the accumulator reduced modulo
`PERIOD` on every invocation make the same calls at every invocation, so they
drive the same levels; the reduced accumulator is the residue of the 32-bit
one and stays below `PERIOD`; and the level driven by an invocation that does
not halt is `(phase >> 7) & 1` of the phase it has stored, which is bit 7 of
the reduced accumulator. -/
theorem C18_level_refines (pkt : Packet) (s : State) (k : Nat) :
    tickCalls pkt (txStart s) k = specTickCalls pkt (txStart s) k ∧
    samples (tickCalls pkt (txStart s) k) = samples (specTickCalls pkt (txStart s) k) ∧
    (specTicks pkt k (txStart s)).phase = (ticks pkt k (txStart s)).phase % PERIOD ∧
    (specTicks pkt k (txStart s)).phase < PERIOD ∧
    samples (tickCalls pkt (txStart s) k) =
      (if (ticks pkt k (txStart s)).packet_pos = pkt.modem_packet_size then []
       else [((ticks pkt (k + 1) (txStart s)).phase >>> 7) &&& 1]) ∧
    samples (specTickCalls pkt (txStart s) k) =
      (if (ticks pkt k (txStart s)).packet_pos = pkt.modem_packet_size then []
       else [specLevel (specTicks pkt (k + 1) (txStart s)).phase]) := by
  have hs : ∀ n, specTicks pkt n (txStart s) =
      { ticks pkt n (txStart s) with phase := (ticks pkt n (txStart s)).phase % PERIOD } := by
    intro n
    have h := specTicks_sim pkt n (txStart s)
    rwa [txStart_reduced] at h
  have hcalls : specTickCalls pkt (txStart s) k = tickCalls pkt (txStart s) k := by
    rw [specTickCalls, hs k, specHandler_sim]
    rfl
  have hsam : samples (tickCalls pkt (txStart s) k) =
      (if (ticks pkt k (txStart s)).packet_pos = pkt.modem_packet_size then []
       else [((ticks pkt (k + 1) (txStart s)).phase >>> 7) &&& 1]) := by
    split
    · rename_i hp
      rw [tickCalls, tick_halt _ _ hp]; rfl
    · rename_i hp
      rw [tickCalls, samples_tick _ _ hp, ticks_succ, shr_seven, and_one]
  have hph : ∀ n, (specTicks pkt n (txStart s)).phase =
      (ticks pkt n (txStart s)).phase % PERIOD := by
    intro n; rw [hs n]
  refine ⟨hcalls.symm, by rw [hcalls], hph k, ?_, hsam, ?_⟩
  · rw [hph k]; exact Nat.mod_lt _ (by decide)
  · rw [hcalls, hsam]
    split
    · rfl
    · rw [hph (k + 1), specLevel, shr_seven, and_one, period_eq]
      congr 1
      omega

end Modem

namespace Adc

/-! ## Bounded retry of `getADC` -/

theorem timeoutTrace_counts (ad n : Nat) :
    readCount (timeoutTrace ad n) = n + 1 ∧ delayCount (timeoutTrace ad n) = n := by
  induction n with
  | zero => exact ⟨rfl, rfl⟩
  | succ n ih =>
    simp only [timeoutTrace, readCount, delayCount]
    omega

/-- Whatever the data register returns, the loop entered with counter `i`
ends within `102 - i` reads. -/
theorem loop_bound (chip : Chip) (ad : Nat) (dataReg : Nat → Nat) (fuel i gdat : Nat)
    (hi : i ≤ 101) (hf : 102 - i ≤ fuel) :
    ∃ v tr, getADC_loop chip ad dataReg fuel i gdat = some (v, tr) ∧
      readCount tr ≤ 102 - i ∧ delayCount tr ≤ 101 - i := by
  induction fuel generalizing i gdat with
  | zero => omega
  | succ fuel ih =>
    rw [getADC_loop]
    split
    · split
      · exact ⟨0, _, rfl, by simp only [readCount]; omega, by simp [delayCount]⟩
      · have hm : (i + 1) % 2 ^ 32 = i + 1 := by omega
        rw [hm]
        obtain ⟨v, tr, he, hr, hd⟩ := ih (i + 1) (dataReg i % 2 ^ 32) (by omega) (by omega)
        refine ⟨v, _, by rw [he]; rfl, ?_, ?_⟩
        · simp only [readCount]; omega
        · simp only [delayCount]; omega
    · exact ⟨_, [], rfl, Nat.zero_le _, Nat.zero_le _⟩

/-- When no read shows a flag, the loop entered with counter `i` and without
a flag returns 0 after `102 - i` reads. -/
theorem loop_timeout (chip : Chip) (ad : Nat) (dataReg : Nat → Nat)
    (hno : ∀ n, (dataReg n % 2 ^ 32) &&&
      (chip.ADC_DR_OVERRUN ||| chip.ADC_SEQ_GDAT_DATAVALID) = 0)
    (fuel i gdat : Nat)
    (hg : gdat &&& (chip.ADC_DR_OVERRUN ||| chip.ADC_SEQ_GDAT_DATAVALID) = 0)
    (hi : i ≤ 101) (hf : 102 - i ≤ fuel) :
    getADC_loop chip ad dataReg fuel i gdat = some (0, timeoutTrace ad (101 - i)) := by
  induction fuel generalizing i gdat with
  | zero => omega
  | succ fuel ih =>
    rw [getADC_loop, if_pos hg]
    split
    · have : 101 - i = 0 := by omega
      rw [this]; rfl
    · have hm : (i + 1) % 2 ^ 32 = i + 1 := by omega
      have hs : 101 - i = (101 - (i + 1)) + 1 := by omega
      rw [hm, ih (i + 1) _ (hno i) (by omega) (by omega), hs, timeoutTrace]
      rfl

/-- C14: for every channel, `getADC` given fuel for 102 iterations returns,
having read the data register at most 102 times and delayed at most 101
units, whatever the register returns; and when no value read shows the
overrun or the data-valid flag it returns 0 after exactly 102 reads and 101
delays of one unit. -/
theorem C14_bounded_retry (chip : Chip) (ad : Nat) (dataReg : Nat → Nat) (extra : Nat) :
    (∃ v tr, getADC chip ad dataReg (102 + extra) = some (v, tr) ∧
      readCount tr ≤ 102 ∧ delayCount tr ≤ 101) ∧
    ((∀ n, (dataReg n % 2 ^ 32) &&&
        (chip.ADC_DR_OVERRUN ||| chip.ADC_SEQ_GDAT_DATAVALID) = 0) →
      getADC chip ad dataReg (102 + extra) =
        some (0, Call.Chip_ADC_SetupSequencer ad :: Call.Chip_ADC_EnableSequencer ::
          timeoutTrace ad 101) ∧
      readCount (timeoutTrace ad 101) = 102 ∧ delayCount (timeoutTrace ad 101) = 101) := by
  constructor
  · obtain ⟨v, tr, he, hr, hd⟩ :=
      loop_bound chip ad dataReg (102 + extra) 0 0 (by omega) (by omega)
    exact ⟨v, _, by rw [getADC, he]; rfl, by simpa [readCount] using hr,
      by simpa [delayCount] using hd⟩
  · intro hno
    refine ⟨?_, (timeoutTrace_counts ad 101).1, (timeoutTrace_counts ad 101).2⟩
    rw [getADC, loop_timeout chip ad dataReg hno (102 + extra) 0 0 (Nat.zero_and _)
      (by omega) (by omega)]
    rfl

/-- C14 on channel 3 of an ADC whose data register always reads 0. -/
theorem C14_bounded_retry_witness :
    (∀ n, ((fun _ : Nat => (0 : Nat)) n % 2 ^ 32) &&&
        (lpc82x.ADC_DR_OVERRUN ||| lpc82x.ADC_SEQ_GDAT_DATAVALID) = 0) ∧
    getADC lpc82x 3 (fun _ : Nat => (0 : Nat)) (102 + 0) =
      some (0, Call.Chip_ADC_SetupSequencer 3 :: Call.Chip_ADC_EnableSequencer ::
        timeoutTrace 3 101) :=
  ⟨fun _ => by simp,
   ((C14_bounded_retry lpc82x 3 (fun _ : Nat => (0 : Nat)) 0).2 (fun _ => by simp)).1⟩

/-! ## Battery conversion -/

/-- C20 fails on the code at small readings: with `REF_MV = 3300` the
readings 1 and 316 make the intermediate value smaller than 562, and the
`uint32_t` subtraction wraps to `2^32 - 561` and `2^32 - 1`, above the 6712
computed from the full-scale reading 4095; from the reading 317 on the
subtraction no longer wraps. The same happens through `getBatteryMV` when
the first read of the data register is valid and holds the result 1. -/
theorem C20_underflow :
    batteryMV 3300 1 = 4294966735 ∧
    batteryMV 3300 316 = 4294967295 ∧
    batteryMV 3300 317 = 0 ∧
    batteryMV 3300 4095 = 6712 ∧
    (1 : Nat) ≤ 4095 ∧ ¬ (batteryMV 3300 1 ≤ batteryMV 3300 4095) ∧
    ((((1 * 3300) % 2 ^ 32) >>> 11) * 1129 % 2 ^ 32) >>> 10 < 562 ∧
    getBatteryMV lpc82x 0 3300 (fun _ : Nat => (1 <<< 31) ||| (1 <<< 4)) 1 =
      some (4294966735, [Call.Chip_ADC_SetupSequencer 0, Call.Chip_ADC_EnableSequencer,
        Call.Chip_ADC_GetDataReg 0, Call.delay 1]) := by
  decide

end Adc
